import Mathlib

/-!
Verification development for the cortana-metrics endpoint-capture library.

The JavaScript sources (`src/index.js`, `src/openapi-generator.js`,
`src/collection-manager.js`) are shallowly embedded below.  JavaScript
values flowing through the capture pipeline are modelled by the inductive
type `JVal`; JavaScript object mutation is modelled by returning updated
values; the host library functions that the code calls (URL parsing, date
parsing, `JSON.parse`) are abstracted as oracle parameters, while pure
regular-expression helpers of the source are implemented concretely.

Machine-level caveats recorded once here: JavaScript numbers are modelled
as rationals (`ℚ`), which is exact for every value the claims touch;
`md5(JSON.stringify(x))` used for change detection is modelled as an
injective fingerprint of `x`, i.e. hash equality is modelled as equality
of the digested data (`HashData`); object literals are modelled after
their JSON serialisation, in which a key assigned `undefined` is absent.
-/

namespace Cortana

/-- Model of a JavaScript runtime value as it appears in captured request
and response bodies.  `junde` is `undefined`; `jhost tag` stands for a
non-JSON host value (for example a function), whose `typeof` is `tag`. -/
inductive JVal where
  | jnull
  | junde
  | jbool (b : Bool)
  | jnum (q : ℚ)
  | jstr (s : String)
  | jarr (xs : List JVal)
  | jobj (fs : List (String × JVal))
  | jhost (tag : String)

open JVal

mutual

/-- Structural boolean equality on `JVal`, spelled out because the nested
occurrences of `List` block the automatic `DecidableEq` derivation. -/
def beqV : JVal → JVal → Bool
  | jnull, jnull => true
  | junde, junde => true
  | jbool a, jbool b => a == b
  | jnum a, jnum b => a == b
  | jstr a, jstr b => a == b
  | jarr a, jarr b => beqL a b
  | jobj a, jobj b => beqF a b
  | jhost a, jhost b => a == b
  | _, _ => false

/-- Elementwise `beqV` on lists of values. -/
def beqL : List JVal → List JVal → Bool
  | [], [] => true
  | x :: xs, y :: ys => beqV x y && beqL xs ys
  | _, _ => false

/-- Elementwise `beqV` on association lists of object fields. -/
def beqF : List (String × JVal) → List (String × JVal) → Bool
  | [], [] => true
  | (k₁, v₁) :: xs, (k₂, v₂) :: ys => k₁ == k₂ && beqV v₁ v₂ && beqF xs ys
  | _, _ => false

end

mutual

theorem beqV_iff : ∀ a b : JVal, beqV a b = true ↔ a = b
  | jnull, b => by cases b <;> simp [beqV]
  | junde, b => by cases b <;> simp [beqV]
  | jbool _, b => by cases b <;> simp [beqV]
  | jnum _, b => by cases b <;> simp [beqV]
  | jstr _, b => by cases b <;> simp [beqV]
  | jarr xs, b => by
      cases b <;> simp [beqV]
      exact beqL_iff xs _
  | jobj fs, b => by
      cases b <;> simp [beqV]
      exact beqF_iff fs _
  | jhost _, b => by cases b <;> simp [beqV]

theorem beqL_iff : ∀ a b : List JVal, beqL a b = true ↔ a = b
  | [], [] => by simp [beqL]
  | [], _ :: _ => by simp [beqL]
  | _ :: _, [] => by simp [beqL]
  | x :: xs, y :: ys => by
      simp [beqL, Bool.and_eq_true, beqV_iff x y, beqL_iff xs ys]

theorem beqF_iff : ∀ a b : List (String × JVal), beqF a b = true ↔ a = b
  | [], [] => by simp [beqF]
  | [], _ :: _ => by simp [beqF]
  | _ :: _, [] => by simp [beqF]
  | (k₁, v₁) :: xs, (k₂, v₂) :: ys => by
      simp [beqF, Bool.and_eq_true, beqV_iff v₁ v₂, beqF_iff xs ys, and_assoc]

end

instance : DecidableEq JVal := fun a b =>
  decidable_of_iff (beqV a b = true) (beqV_iff a b)

/-- JavaScript truthiness of a runtime value: `undefined`, `null`,
`false`, `0`, and the empty string are falsy; every object, array and
host value is truthy. -/
def jsTruthy : JVal → Bool
  | jnull => false
  | junde => false
  | jbool b => b
  | jnum q => q ≠ 0
  | jstr s => s ≠ ""
  | jarr _ => true
  | jobj _ => true
  | jhost _ => true

/-- JavaScript's `typeof` on a modelled value (note `typeof null` is
`"object"`). -/
def typeofStr : JVal → String
  | jnull => "object"
  | junde => "undefined"
  | jbool _ => "boolean"
  | jnum _ => "number"
  | jstr _ => "string"
  | jarr _ => "object"
  | jobj _ => "object"
  | jhost tag => tag

/-- The guard `v && typeof v === 'object'` that the sources use before
recursing into a value. -/
def isTruthyObject (v : JVal) : Bool :=
  jsTruthy v && (typeofStr v == "object")

/-- Truthiness of a possibly-absent (`undefined`) field. -/
def optTruthy (o : Option JVal) : Bool :=
  o.elim false jsTruthy

/-- Number of keys `Object.keys(v)` yields: object fields, array indices,
string character indices; primitives have none. -/
def objectKeysLength : JVal → Nat
  | jobj fs => fs.length
  | jarr xs => xs.length
  | jstr s => s.length
  | _ => 0

/-- First-match association-list lookup, modelling JavaScript property or
`Map` access on string keys. -/
def lookupAssoc {α : Type} (k : String) : List (String × α) → Option α
  | [] => none
  | (k', v) :: rest => if k' = k then some v else lookupAssoc k rest

/-- Property assignment `o[k] = v`: replaces the first binding of `k`, or
appends a new binding, preserving JavaScript key-insertion order. -/
def setAssoc {α : Type} (k : String) (v : α) : List (String × α) → List (String × α)
  | [] => [(k, v)]
  | (k', v') :: rest => if k' = k then (k, v) :: rest else (k', v') :: setAssoc k v rest

theorem lookupAssoc_setAssoc {α : Type} (k : String) (v : α) :
    ∀ l : List (String × α), lookupAssoc k (setAssoc k v l) = some v := by
  intro l
  induction l with
  | nil => simp [setAssoc, lookupAssoc]
  | cons p rest ih =>
      by_cases h : p.1 = k
      · simp [setAssoc, h, lookupAssoc]
      · simpa [setAssoc, h, lookupAssoc] using ih

/-- ASCII lower-casing of one character, as `String.prototype.toLowerCase`
acts on the ASCII range the sources deal in. -/
def lowerChar (c : Char) : Char :=
  if 'A' ≤ c ∧ c ≤ 'Z' then Char.ofNat (c.toNat + 32) else c

/-- ASCII `toLowerCase` on strings. -/
def lowerStr (s : String) : String :=
  String.mk (s.data.map lowerChar)

/-- ASCII upper-casing of one character. -/
def upperChar (c : Char) : Char :=
  if 'a' ≤ c ∧ c ≤ 'z' then Char.ofNat (c.toNat - 32) else c

/-- ASCII `toUpperCase` on strings. -/
def upperStr (s : String) : String :=
  String.mk (s.data.map upperChar)

/-- Boolean list-prefix test used by the substring search below. -/
def isPrefixOfL : List Char → List Char → Bool
  | [], _ => true
  | _ :: _, [] => false
  | a :: as, b :: bs => a == b && isPrefixOfL as bs

/-- Substring occurrence test on character lists. -/
def hasSubL (needle : List Char) : List Char → Bool
  | [] => needle.isEmpty
  | c :: rest => isPrefixOfL needle (c :: rest) || hasSubL needle rest

/-- JavaScript `haystack.includes(needle)`. -/
def strIncludes (hay needle : String) : Bool :=
  hasSubL needle.data hay.data

/-- JavaScript `s.startsWith(p)` restricted to the way the sources use it. -/
def strStartsWith (s p : String) : Bool :=
  isPrefixOfL p.data s.data

/-- Field-name sensitivity test from `_recursiveSanitize` and
`_recursiveEnhance`: the lower-cased key contains some configured
sensitive substring (`lowerKey.includes(field.toLowerCase())`). -/
def matchesSensitiveField (sf : List String) (key : String) : Bool :=
  sf.any fun f => strIncludes (lowerStr key) (lowerStr f)

/-- The fixed redaction marker the sources write over sensitive values. -/
def redactedMarker : JVal := jstr "[REDACTED]"

/-- Embedding of `EndpointCapture._sanitizeHeaders`: a copy of the header
map in which every key that equals (case-insensitively) some configured
sensitive header name has its value replaced by the redaction marker.
The source loops over the configured names mutating a shallow copy; a key
is redacted exactly when some configured name matches it. -/
def sanitizeHeaders (sh : List String) (headers : List (String × String)) :
    List (String × String) :=
  headers.map fun p =>
    (p.1, if sh.any (fun h => lowerStr p.1 == lowerStr h) then "[REDACTED]" else p.2)

mutual

/-- Embedding of `EndpointCapture._recursiveSanitize` on tree-shaped
(acyclic) values: arrays are visited elementwise, object keys matching a
sensitive substring are overwritten with the redaction marker without
recursing further, other object values are recursed into, and primitives
are left alone.  The source's visited set only fires on cyclic object
graphs, which trees never are; the cyclic case is modelled separately on
an explicit heap below. -/
def recursiveSanitize (sf : List String) : JVal → JVal
  | jarr xs => jarr (recursiveSanitizeL sf xs)
  | jobj fs => jobj (recursiveSanitizeF sf fs)
  | v => v

/-- Array part of `_recursiveSanitize`. -/
def recursiveSanitizeL (sf : List String) : List JVal → List JVal
  | [] => []
  | x :: xs => recursiveSanitize sf x :: recursiveSanitizeL sf xs

/-- Object-field part of `_recursiveSanitize`. -/
def recursiveSanitizeF (sf : List String) : List (String × JVal) → List (String × JVal)
  | [] => []
  | (k, v) :: fs =>
      (k, if matchesSensitiveField sf k then redactedMarker
          else recursiveSanitize sf v) :: recursiveSanitizeF sf fs

end

/-- Embedding of `EndpointCapture._sanitizeBody`: deep-clone then sanitize
in place; in the value model the clone is the value itself. -/
def sanitizeBody (sf : List String) (body : JVal) : JVal :=
  if jsTruthy body && (typeofStr body == "object") then recursiveSanitize sf body else body

end Cortana

namespace Cortana

/-- Text the generator substitutes for a slash-led digit run, that is the
replacement string of `.replace(/\/\d+/g, '/{id}')`. -/
def slashIdText : List Char := "/{id}".data

/-- Single application of `.replace(/\/$/, '')`: drops one trailing slash
if the string ends in one. -/
def stripTrailingSlashL : List Char → List Char
  | [] => []
  | [c] => if c = '/' then [] else [c]
  | c :: rest => c :: stripTrailingSlashL rest

/-- Does the character list start with a decimal digit (`\d`)? -/
def headIsDigit : List Char → Bool
  | [] => false
  | c :: _ => c.isDigit

/-- Global application of `.replace(/\/\d+/g, '/{id}')` as a left-to-right
scan.  `skipping = true` means the scanner is inside a digit run that was
already replaced, mirroring the regex engine resuming after a match. -/
def replaceIdRuns (skipping : Bool) : List Char → List Char
  | [] => []
  | c :: rest =>
      if skipping ∧ c.isDigit then replaceIdRuns true rest
      else if c = '/' ∧ headIsDigit rest then slashIdText ++ replaceIdRuns true rest
      else c :: replaceIdRuns false rest

/-- Embedding of `OpenAPIGenerator.normalizePathForParameterization`:
`path.replace(/\/$/, '').replace(/\/\d+/g, '/{id}')`. -/
def normalizePathForParameterization (path : String) : String :=
  String.mk (replaceIdRuns false (stripTrailingSlashL path.data))

/-- Is the segment nonempty and made purely of decimal digits? -/
def isAllDigitsSeg (s : List Char) : Bool :=
  !s.isEmpty && s.all Char.isDigit

/-- Segment-level normalization the specification describes: a purely
numeric segment becomes the placeholder, all others stay. -/
def normSeg (s : List Char) : List Char :=
  if isAllDigitsSeg s then "{id}".data else s

/-- A path assembled from slash-led segments. -/
def joinSegs : List (List Char) → List Char
  | [] => []
  | s :: rest => '/' :: (s ++ joinSegs rest)

theorem stripTrailingSlashL_cons_ne_nil (c : Char) (l : List Char) (h : l ≠ []) :
    stripTrailingSlashL (c :: l) = c :: stripTrailingSlashL l := by
  cases l with
  | nil => exact absurd rfl h
  | cons d rest => rfl

theorem stripTrailingSlashL_append_slash : ∀ l : List Char,
    stripTrailingSlashL (l ++ ['/']) = l := by
  intro l
  induction l with
  | nil => rfl
  | cons c rest ih =>
      rw [List.cons_append, stripTrailingSlashL_cons_ne_nil c _ (by simp), ih]

theorem stripTrailingSlashL_no_slash : ∀ l : List Char, '/' ∉ l →
    stripTrailingSlashL l = l := by
  intro l
  induction l with
  | nil => intro _; rfl
  | cons c rest ih =>
      intro h
      cases rest with
      | nil =>
          have : c ≠ '/' := by simp at h; exact fun hc => h (hc ▸ rfl) |>.elim
          simp [stripTrailingSlashL, this]
      | cons d r =>
          rw [stripTrailingSlashL_cons_ne_nil c _ (by simp)]
          have : '/' ∉ d :: r := fun hm => h (List.mem_cons_of_mem _ hm)
          rw [ih this]

theorem replaceIdRuns_nil (b : Bool) : replaceIdRuns b [] = [] := rfl

theorem replaceIdRuns_false_copy (c : Char) (rest : List Char)
    (h : ¬(c = '/' ∧ headIsDigit rest)) :
    replaceIdRuns false (c :: rest) = c :: replaceIdRuns false rest := by
  simp [replaceIdRuns, h]

theorem replaceIdRuns_false_slash_digit (rest : List Char) (h : headIsDigit rest = true) :
    replaceIdRuns false ('/' :: rest) = slashIdText ++ replaceIdRuns true rest := by
  simp [replaceIdRuns, h]

theorem replaceIdRuns_true_digit (c : Char) (rest : List Char) (h : c.isDigit = true) :
    replaceIdRuns true (c :: rest) = replaceIdRuns true rest := by
  simp [replaceIdRuns, h]

theorem replaceIdRuns_true_exit (c : Char) (rest : List Char) (h : c.isDigit = false) :
    replaceIdRuns true (c :: rest) = replaceIdRuns false (c :: rest) := by
  simp [replaceIdRuns, h]

theorem replaceIdRuns_false_seg (s : List Char) (tail : List Char) (h : '/' ∉ s) :
    replaceIdRuns false (s ++ tail) = s ++ replaceIdRuns false tail := by
  induction s with
  | nil => simp
  | cons c rest ih =>
      have hc : c ≠ '/' := fun hc => h (hc ▸ List.mem_cons_self c rest)
      have hrest : '/' ∉ rest := fun hm => h (List.mem_cons_of_mem _ hm)
      rw [List.cons_append, replaceIdRuns_false_copy c _ (fun hp => hc hp.1), ih hrest]
      simp

theorem replaceIdRuns_true_digits (s : List Char) (tail : List Char)
    (h : s.all Char.isDigit = true) :
    replaceIdRuns true (s ++ tail) = replaceIdRuns true tail := by
  induction s with
  | nil => simp
  | cons c rest ih =>
      simp only [List.all_cons, Bool.and_eq_true] at h
      rw [List.cons_append, replaceIdRuns_true_digit c _ h.1, ih h.2]

theorem replaceIdRuns_joinSegs : ∀ ss : List (List Char),
    (∀ s ∈ ss, s ≠ [] ∧ '/' ∉ s ∧ (s.all Char.isDigit = true ∨ headIsDigit s = false)) →
    replaceIdRuns false (joinSegs ss) = joinSegs (ss.map normSeg) := by
  intro ss
  induction ss with
  | nil => intro _; rfl
  | cons s rest ih =>
      intro h
      obtain ⟨hne, hns, hd⟩ := h s (List.mem_cons_self s rest)
      have hrest := fun t ht => h t (List.mem_cons_of_mem _ ht)
      by_cases hall : s.all Char.isDigit = true ∧ s ≠ []
      · -- purely numeric segment: replaced by the placeholder
        have hhead : headIsDigit (s ++ joinSegs rest) = true := by
          cases s with
          | nil => exact absurd rfl hall.2
          | cons c cs =>
              have := hall.1
              simp only [List.all_cons, Bool.and_eq_true] at this
              simp [headIsDigit, this.1]
        have hseg : normSeg s = "{id}".data := by
          simp [normSeg, isAllDigitsSeg, hall.1, hne]
        rw [show joinSegs (s :: rest) = '/' :: (s ++ joinSegs rest) from rfl,
          replaceIdRuns_false_slash_digit _ hhead,
          replaceIdRuns_true_digits s _ hall.1]
        have htail : replaceIdRuns true (joinSegs rest) = replaceIdRuns false (joinSegs rest) := by
          cases hrest' : joinSegs rest with
          | nil => rfl
          | cons c cs =>
              have hc : c = '/' := by
                cases rest with
                | nil => simp [joinSegs] at hrest'
                | cons t ts =>
                    simp only [joinSegs] at hrest'
                    exact (List.cons_eq_cons.mp hrest').1.symm
              rw [replaceIdRuns_true_exit c cs (by rw [hc]; decide)]
        rw [htail, ih hrest]
        simp [joinSegs, hseg, slashIdText]
      · -- segment kept verbatim
        have hnotall : ¬s.all Char.isDigit = true := fun hc => hall ⟨hc, hne⟩
        have hhd : headIsDigit s = false := by
          rcases hd with hd | hd
          · exact absurd hd hnotall
          · exact hd
        have hhead : headIsDigit (s ++ joinSegs rest) = false := by
          cases s with
          | nil => exact absurd rfl hne
          | cons c cs => simpa [headIsDigit] using hhd
        have hseg : normSeg s = s := by
          simp [normSeg, isAllDigitsSeg, hnotall]
        rw [show joinSegs (s :: rest) = '/' :: (s ++ joinSegs rest) from rfl,
          replaceIdRuns_false_copy '/' _ (by simp [hhead]),
          replaceIdRuns_false_seg s _ hns, ih hrest]
        simp [joinSegs, hseg]

theorem stripTrailingSlashL_append (l₁ : List Char) :
    ∀ l₂ : List Char, l₂ ≠ [] →
    stripTrailingSlashL (l₁ ++ l₂) = l₁ ++ stripTrailingSlashL l₂ := by
  induction l₁ with
  | nil => intro l₂ _; simp
  | cons c cs ih =>
      intro l₂ h
      have hne : cs ++ l₂ ≠ [] := by
        intro hc
        exact h (List.append_eq_nil.mp hc).2
      rw [List.cons_append, stripTrailingSlashL_cons_ne_nil c _ hne, ih l₂ h]
      simp

theorem stripTrailingSlashL_joinSegs : ∀ ss : List (List Char),
    ss ≠ [] → (∀ s ∈ ss, s ≠ [] ∧ '/' ∉ s) →
    stripTrailingSlashL (joinSegs ss) = joinSegs ss := by
  intro ss
  induction ss with
  | nil => intro h _; exact absurd rfl h
  | cons s rest ih =>
      intro _ h
      obtain ⟨hne, hns⟩ := h s (List.mem_cons_self s rest)
      cases hr : rest with
      | nil =>
          subst hr
          show stripTrailingSlashL ('/' :: (s ++ [])) = '/' :: (s ++ [])
          rw [List.append_nil, stripTrailingSlashL_cons_ne_nil '/' s hne,
            stripTrailingSlashL_no_slash s hns]
      | cons t ts =>
          subst hr
          have hjoin : joinSegs (t :: ts) ≠ [] := by simp [joinSegs]
          have happ : s ++ joinSegs (t :: ts) ≠ [] := by
            intro hc
            exact hjoin (List.append_eq_nil.mp hc).2
          have ihr := ih (by simp) (fun u hu => h u (List.mem_cons_of_mem _ hu))
          show stripTrailingSlashL ('/' :: (s ++ joinSegs (t :: ts)))
              = '/' :: (s ++ joinSegs (t :: ts))
          rw [stripTrailingSlashL_cons_ne_nil '/' _ happ,
            stripTrailingSlashL_append s _ hjoin, ihr]

open JVal

/-- Split a character list at the first occurrence of `c`, returning the
parts before and after it. -/
def splitFirstAt (c : Char) : List Char → Option (List Char × List Char)
  | [] => none
  | x :: rest =>
      if x = c then some ([], rest)
      else
        match splitFirstAt c rest with
        | none => none
        | some (a, b) => some (x :: a, b)

/-- Whitespace characters of the regex class `\s` (ASCII range). -/
def isWsChar (c : Char) : Bool :=
  c = ' ' ∨ c = '\t' ∨ c = '\n' ∨ c = '\r' ∨ c = '\x0b' ∨ c = '\x0c'

/-- Character class `[^\s@]` of the email pattern. -/
def emailClassChar (c : Char) : Bool :=
  !isWsChar c && c ≠ '@'

/-- Does the list contain a dot that has at least one character on each
side? -/
def dotInterior (l : List Char) : Bool :=
  ((l.drop 1).dropLast).contains '.'

/-- Embedding of `EndpointCapture._isEmail`, the test of the pattern
`/^[^\s@]+@[^\s@]+\.[^\s@]+$/`: some `@` splits the string into a nonempty
local part and a nonempty rest, both free of whitespace and `@`, and the
rest carries an interior dot. -/
def isEmailStr (s : String) : Bool :=
  match splitFirstAt '@' s.data with
  | none => false
  | some (loc, rest) =>
      !loc.isEmpty && loc.all emailClassChar && !rest.isEmpty &&
        rest.all emailClassChar && dotInterior rest

/-- Hexadecimal digit (either case). -/
def isHexChar (c : Char) : Bool :=
  c.isDigit || (decide ('a' ≤ lowerChar c) && decide (lowerChar c ≤ 'f'))

/-- Version digit of the UUID pattern, `[1-5]`. -/
def uuidVersionOK : List Char → Bool
  | v :: _ => ['1', '2', '3', '4', '5'].contains v
  | [] => false

/-- Variant digit of the UUID pattern, `[89ab]` case-insensitively. -/
def uuidVariantOK : List Char → Bool
  | v :: _ => ['8', '9', 'a', 'b'].contains (lowerChar v)
  | [] => false

/-- JavaScript `s.split(sep)` for a one-character separator. -/
def splitOnCharL (sep : Char) : List Char → List (List Char)
  | [] => [[]]
  | c :: rest =>
      let r := splitOnCharL sep rest
      if c = sep then [] :: r
      else
        match r with
        | seg :: segs => (c :: seg) :: segs
        | [] => [[c]]

/-- String version of `splitOnCharL`. -/
def splitOnChar (sep : Char) (s : String) : List String :=
  (splitOnCharL sep s.data).map String.mk

/-- Embedding of `EndpointCapture._isUuid`, the canonical 8-4-4-4-12
grouping with a version digit 1-5 and variant digit `[89ab]`, matched
case-insensitively. -/
def isUuidStr (s : String) : Bool :=
  match splitOnChar '-' s with
  | [a, b, c, d, e] =>
      a.length == 8 && b.length == 4 && c.length == 4 && d.length == 4 && e.length == 12 &&
        a.data.all isHexChar && b.data.all isHexChar && c.data.all isHexChar &&
        d.data.all isHexChar && e.data.all isHexChar &&
        uuidVersionOK c.data && uuidVariantOK d.data
  | _ => false

/-- Oracles for the host-library behaviour the sources depend on:
`new URL(s)` succeeding, `new Date(s)` parsing to a valid time, and
`JSON.parse(s)` succeeding with a parsed value.  These are runtime
services of the host, not code of this repository, so they are
parameters of the embedding. -/
structure Host where
  isUrl : String → Bool
  isDate : String → Bool
  jsonParse : String → Option JVal

/-- Embedding of `EndpointCapture._isDate`: the host can parse the string
as a date and it is longer than 4 characters. -/
def isDateStr (host : Host) (s : String) : Bool :=
  host.isDate s && decide (4 < s.length)

/-- Embedding of `EndpointCapture._isJson`: `JSON.parse` succeeds. -/
def isJsonStr (host : Host) (s : String) : Bool :=
  (host.jsonParse s).isSome

/-- Embedding of `EndpointCapture._getDataType`: semantic type label of a
leaf value, with the source's classification order for strings. -/
def getDataType (host : Host) : JVal → String
  | jnull => "null"
  | junde => "undefined"
  | jbool _ => "boolean"
  | jnum q => if q.den = 1 then "integer" else "number"
  | jstr s =>
      if isEmailStr s then "email"
      else if host.isUrl s then "url"
      else if isDateStr host s then "date"
      else if isUuidStr s then "uuid"
      else if isJsonStr host s then "json_string"
      else "string"
  | jarr _ => "array"
  | jobj _ => "object"
  | jhost tag => tag

/-- Sensitive-field descriptor as `_recursiveEnhance` pushes it:
dot-joined path, leaf key name, type label of the original value, and the
original (unredacted) value. -/
structure SField where
  path : String
  field : String
  type : String
  actualValue : JVal
deriving DecidableEq

/-- JavaScript `path.join('.')`. -/
def joinDots (path : List String) : String :=
  String.intercalate "." path

/-- Result of the enhance traversal over one value. -/
structure EnhOut where
  sanitized : JVal
  types : JVal
  hasSensitiveData : Bool
  sensitiveFields : List SField

/-- Result of the enhance traversal over the elements of an array. -/
structure EnhOutL where
  sanitized : List JVal
  types : List JVal
  hasSensitiveData : Bool
  sensitiveFields : List SField

/-- Result of the enhance traversal over the fields of an object. -/
structure EnhOutF where
  sanitized : List (String × JVal)
  types : List (String × JVal)
  hasSensitiveData : Bool
  sensitiveFields : List SField

mutual

/-- Embedding of `EndpointCapture._recursiveEnhance`: walks the cloned
body computing in one pass the sanitized tree, the types tree, the
any-sensitive-field flag and the sensitive-field descriptor list.  The
source mutates the cloned trees and a shared result object in place; the
embedding returns the updated trees and accumulates the flags. -/
def recursiveEnhance (sf : List String) (host : Host) : JVal → List String → EnhOut
  | jarr xs, path =>
      let r := recursiveEnhanceL sf host xs 0 path
      ⟨jarr r.sanitized, jarr r.types, r.hasSensitiveData, r.sensitiveFields⟩
  | jobj fs, path =>
      let r := recursiveEnhanceF sf host fs path
      ⟨jobj r.sanitized, jobj r.types, r.hasSensitiveData, r.sensitiveFields⟩
  | v, _ => ⟨v, v, false, []⟩

/-- Array part of `_recursiveEnhance`: truthy objects are recursed into
with the element index appended to the path; other elements only get a
type label. -/
def recursiveEnhanceL (sf : List String) (host : Host) :
    List JVal → Nat → List String → EnhOutL
  | [], _, _ => ⟨[], [], false, []⟩
  | x :: xs, i, path =>
      let rest := recursiveEnhanceL sf host xs (i + 1) path
      if isTruthyObject x then
        let r := recursiveEnhance sf host x (path ++ [toString i])
        ⟨r.sanitized :: rest.sanitized, r.types :: rest.types,
         r.hasSensitiveData || rest.hasSensitiveData,
         r.sensitiveFields ++ rest.sensitiveFields⟩
      else
        ⟨x :: rest.sanitized, jstr (getDataType host x) :: rest.types,
         rest.hasSensitiveData, rest.sensitiveFields⟩

/-- Object-field part of `_recursiveEnhance`: a sensitive key is recorded
and overwritten with the redaction marker without recursing; a truthy
object value is recursed into; any other value gets a type label. -/
def recursiveEnhanceF (sf : List String) (host : Host) :
    List (String × JVal) → List String → EnhOutF
  | [], _ => ⟨[], [], false, []⟩
  | (k, v) :: fs, path =>
      let rest := recursiveEnhanceF sf host fs path
      if matchesSensitiveField sf k then
        ⟨(k, redactedMarker) :: rest.sanitized,
         (k, jstr (getDataType host redactedMarker)) :: rest.types,
         true,
         ⟨joinDots (path ++ [k]), k, getDataType host v, v⟩ :: rest.sensitiveFields⟩
      else if isTruthyObject v then
        let r := recursiveEnhance sf host v (path ++ [k])
        ⟨(k, r.sanitized) :: rest.sanitized, (k, r.types) :: rest.types,
         r.hasSensitiveData || rest.hasSensitiveData,
         r.sensitiveFields ++ rest.sensitiveFields⟩
      else
        ⟨(k, v) :: rest.sanitized, (k, jstr (getDataType host v)) :: rest.types,
         rest.hasSensitiveData, rest.sensitiveFields⟩

end

/-- Combined result of `EndpointCapture._enhanceDataCapture`.  In the
source's non-object branch the result object has no `sensitiveFields`
key, modelled by `none`. -/
structure EnhanceResult where
  sanitized : JVal
  actual : JVal
  types : JVal
  hasSensitiveData : Bool
  sensitiveFields : Option (List SField)
deriving DecidableEq

/-- Embedding of `EndpointCapture._enhanceDataCapture`: a falsy or
non-object body passes through with a type label; otherwise the body is
deep-cloned (the clone being the value itself in this model), the clone
is walked by `recursiveEnhance`, and the untouched second clone is kept
as the `actual` value. -/
def enhanceDataCapture (sf : List String) (host : Host) (body : JVal) : EnhanceResult :=
  if isTruthyObject body then
    let r := recursiveEnhance sf host body []
    ⟨r.sanitized, body, r.types, r.hasSensitiveData, some r.sensitiveFields⟩
  else
    ⟨body, body, jstr (getDataType host body), false, none⟩

/-- Capture options after the `EndpointCapture` constructor resolved the
caller-supplied values (only the fields the embedded code reads). -/
structure CaptureOptions where
  captureRequestBody : Bool
  captureResponseBody : Bool
  captureHeaders : Bool
  captureQueryParams : Bool
  capturePathParams : Bool
  captureCookies : Bool
  captureTiming : Bool
  maxBodySize : Nat
  sensitiveHeaders : List String
  sensitiveFields : List String
  timestampFormat : String
deriving DecidableEq

/-- Caller-supplied constructor options; `none` models an absent key. -/
structure CaptureOptionsIn where
  captureRequestBody : Option Bool := none
  captureResponseBody : Option Bool := none
  captureHeaders : Option Bool := none
  captureQueryParams : Option Bool := none
  capturePathParams : Option Bool := none
  captureCookies : Option Bool := none
  captureTiming : Option Bool := none
  maxBodySize : Option Nat := none
  sensitiveHeaders : Option (List String) := none
  sensitiveFields : Option (List String) := none
  timestampFormat : Option String := none

/-- Embedding of the option resolution in the `EndpointCapture`
constructor: boolean flags default true via `!== false`, numeric and
string fields default through `||` (so an explicit falsy value also takes
the default), and the two sensitive lists default to the EMPTY list
(`options.sensitiveHeaders || []`, `options.sensitiveFields || []`). -/
def resolveCaptureOptions (o : CaptureOptionsIn) : CaptureOptions where
  captureRequestBody := o.captureRequestBody ≠ some false
  captureResponseBody := o.captureResponseBody ≠ some false
  captureHeaders := o.captureHeaders ≠ some false
  captureQueryParams := o.captureQueryParams ≠ some false
  capturePathParams := o.capturePathParams ≠ some false
  captureCookies := o.captureCookies ≠ some false
  captureTiming := o.captureTiming ≠ some false
  maxBodySize := match o.maxBodySize with
    | some n => if n = 0 then 1048576 else n
    | none => 1048576
  sensitiveHeaders := o.sensitiveHeaders.getD []
  sensitiveFields := o.sensitiveFields.getD []
  timestampFormat := match o.timestampFormat with
    | some s => if s = "" then "YYYY-MM-DD HH:mm:ss.SSS" else s
    | none => "YYYY-MM-DD HH:mm:ss.SSS"

/-- The framework request object as `captureRequest` reads it. -/
structure ExpressReq where
  method : String
  url : String
  originalUrl : String := ""
  baseUrl : String := ""
  path : String := ""
  protocol : String := ""
  secure : Bool := false
  ip : String := ""
  hostname : String := ""
  headers : List (String × String) := []
  query : List (String × JVal) := []
  params : List (String × String) := []
  cookies : List (String × String) := []
  body : Option JVal := none
deriving DecidableEq

/-- Express `req.get(name)`: case-insensitive single-header lookup. -/
def reqGetHeader (req : ExpressReq) (name : String) : Option String :=
  (req.headers.find? fun p => lowerStr p.1 == lowerStr name).map (·.2)

/-- The per-request capture record (`requestData` in `captureRequest`).
`none` models a key the source never set.  `originalPath` is added later
by the generator's normalization step. -/
structure ReqCapture where
  timestamp : String := ""
  method : String
  url : String := ""
  originalUrl : String := ""
  baseUrl : String := ""
  path : String
  originalPath : Option String := none
  protocol : String := ""
  secure : Bool := false
  ip : String := ""
  hostname : String := ""
  startTime : Int := 0
  headers : Option (List (String × String)) := none
  query : Option (List (String × JVal)) := none
  params : Option (List (String × String)) := none
  cookies : Option (List (String × String)) := none
  body : Option JVal := none
  bodyActual : Option JVal := none
  bodyTypes : Option JVal := none
  hasSensitiveData : Option Bool := none
  sensitiveFields : Option (List SField) := none
  userAgent : Option String := none
  contentType : Option String := none
  contentLength : Option String := none
  accept : Option String := none
  acceptEncoding : Option String := none
  acceptLanguage : Option String := none
deriving DecidableEq

/-- Embedding of `EndpointCapture.captureRequest`.  The clock reads
`Date.now()` and the formatted timestamp are passed in as `now` and
`nowStr`; a missing method or url raises, modelled by `Except.error`. -/
def captureRequest (opts : CaptureOptions) (host : Host) (now : Int) (nowStr : String)
    (req : ExpressReq) : Except String ReqCapture :=
  if req.method = "" ∨ req.url = "" then
    .error "Request object must have method and url properties"
  else
    let base : ReqCapture := {
      timestamp := nowStr
      method := req.method
      url := req.url
      originalUrl := req.originalUrl
      baseUrl := req.baseUrl
      path := req.path
      protocol := req.protocol
      secure := req.secure
      ip := req.ip
      hostname := req.hostname
      startTime := now
      headers := if opts.captureHeaders
        then some (sanitizeHeaders opts.sensitiveHeaders req.headers) else none
      query := if opts.captureQueryParams then some req.query else none
      params := if opts.capturePathParams then some req.params else none
      cookies := if opts.captureCookies then some req.cookies else none
      userAgent := reqGetHeader req "User-Agent"
      contentType := reqGetHeader req "Content-Type"
      contentLength := reqGetHeader req "Content-Length"
      accept := reqGetHeader req "Accept"
      acceptEncoding := reqGetHeader req "Accept-Encoding"
      acceptLanguage := reqGetHeader req "Accept-Language" }
    match req.body with
    | some b =>
        if opts.captureRequestBody ∧ jsTruthy b then
          let e := enhanceDataCapture opts.sensitiveFields host b
          .ok { base with
            body := some e.sanitized
            bodyActual := some e.actual
            bodyTypes := some e.types
            hasSensitiveData := some e.hasSensitiveData
            sensitiveFields := e.sensitiveFields }
        else .ok base
    | none => .ok base

/-- The per-response capture record (`responseData` in
`captureResponse`), treated as data by the generator; the timing fields
are filled by the capture layer from the wall clock. -/
structure RespRecord where
  timestamp : String := ""
  statusCode : Int := 200
  statusMessage : String := ""
  endTime : Int := 0
  duration : Option Int := none
  durationFormatted : Option String := none
  headers : Option (List (String × String)) := none
  body : Option JVal := none
  bodyActual : Option JVal := none
  bodyTypes : Option JVal := none
  hasSensitiveData : Option Bool := none
  sensitiveFields : Option (List SField) := none
deriving DecidableEq

/-- Capture metadata block. -/
structure MetaRecord where
  capturedAt : String := ""
  version : Option String := none
deriving DecidableEq

/-- A complete capture record handed to the generator. -/
structure EndpointRecord where
  request : ReqCapture
  response : RespRecord
  metadata : Option MetaRecord := none
deriving DecidableEq

/-- The data `OpenAPIGenerator.calculateEndpointHash` digests: method,
(normalized) path, request headers, request body, and the ENTIRE response
record. -/
structure HashData where
  method : String
  path : String
  headers : Option (List (String × String))
  body : Option JVal
  response : RespRecord
deriving DecidableEq

/-- Embedding of `OpenAPIGenerator.calculateEndpointHash`.  The source
computes `md5(JSON.stringify(hashData))`; the digest pipeline is modelled
as an injective fingerprint, so the hash value is identified with the
digested `HashData` itself and hash comparison with its equality. -/
def calculateEndpointHash (r : EndpointRecord) : HashData :=
  ⟨r.request.method, r.request.path, r.request.headers, r.request.body, r.response⟩

/-- Generator options the `addEndpoint` path reads. -/
structure GenOptions where
  includeExamples : Bool := true
  groupByPath : Bool := true
  autoSave : Bool := true
  detectChanges : Bool := true
deriving DecidableEq

/-- The mutable generator state `addEndpoint` works on: the `paths` and
`tags` parts of the in-memory document plus the change-detection hash
table (the other document parts are never touched by `addEndpoint`). -/
structure GenState where
  paths : List (String × List (String × JVal)) := []
  tags : List (String × String) := []
  endpointHashes : List (String × HashData) := []
deriving DecidableEq

/-- Embedding of `OpenAPIGenerator.generateOperationSummary`. -/
def generateOperationSummary (request : ReqCapture) : String :=
  upperStr request.method ++ " " ++ request.path

/-- Embedding of `OpenAPIGenerator.generateOperationDescription`. -/
def generateOperationDescription (r : EndpointRecord) : String :=
  let d1 := "**" ++ upperStr r.request.method ++ " " ++ r.request.path ++ "**\n\n" ++
    "- **Status Code**: " ++ toString r.response.statusCode ++ "\n"
  let d2 := match r.response.duration with
    | some d => if d ≠ 0 then d1 ++ "- **Response Time**: " ++ toString d ++ "ms\n" else d1
    | none => d1
  match r.metadata with
  | some m => if m.capturedAt ≠ "" then d2 ++ "- **Last Captured**: " ++ m.capturedAt ++ "\n" else d2
  | none => d2

/-- ASCII letters and digits, the class `[a-zA-Z0-9]`. -/
def isAsciiAlnum (c : Char) : Bool :=
  c.isDigit || (decide ('a' ≤ c) && decide (c ≤ 'z')) || (decide ('A' ≤ c) && decide (c ≤ 'Z'))

/-- Collapse runs of underscores to one (`.replace(/_+/g, '_')`). -/
def collapseUnderscores (prev : Bool) : List Char → List Char
  | [] => []
  | c :: rest =>
      if c = '_' then
        if prev then collapseUnderscores true rest else '_' :: collapseUnderscores true rest
      else c :: collapseUnderscores false rest

/-- Drop one leading occurrence of the character. -/
def dropHeadIfChar (t : Char) : List Char → List Char
  | [] => []
  | c :: rest => if c = t then rest else c :: rest

/-- Drop one trailing occurrence of the character. -/
def dropLastIfChar (t : Char) : List Char → List Char
  | [] => []
  | [c] => if c = t then [] else [c]
  | c :: rest => c :: dropLastIfChar t rest

/-- Embedding of `OpenAPIGenerator.generateOperationId`: the regex
pipeline removing braces, replacing non-alphanumeric characters by
underscores, collapsing runs, and trimming one underscore at each end
(`/^_|_$/g`). -/
def generateOperationId (request : ReqCapture) : String :=
  let step1 := request.path.data.filter fun c => !(c = '\x7b' ∨ c = '\x7d')
  let step2 := step1.map fun c => if isAsciiAlnum c then c else '_'
  let step3 := collapseUnderscores false step2
  let step4 := dropHeadIfChar '_' (dropLastIfChar '_' step3)
  lowerStr request.method ++ "_" ++ String.mk step4

/-- JavaScript `path.split('/').filter(Boolean)`. -/
def splitPathSegs (p : String) : List String :=
  (splitOnChar '/' p).filter (· ≠ "")

/-- Embedding of `OpenAPIGenerator.generateTags`. -/
def generateTags (groupByPath : Bool) (request : ReqCapture) : List String :=
  if !groupByPath then ["API"]
  else
    match splitPathSegs request.path with
    | p :: _ => [p]
    | [] => ["API"]

/-- The fixed allow-list of header parameters the generator keeps. -/
def relevantHeaders : List String :=
  ["authorization", "x-api-key", "x-auth-token", "content-type", "accept"]

/-- Embedding of `OpenAPIGenerator.generateParameters`: path parameters
(required, string), query parameters (optional, number when the captured
value is numeric), and the filtered request headers. -/
def generateParameters (request : ReqCapture) : List JVal :=
  let pathParams := match request.params with
    | some ps =>
        if ps.length > 0 then
          ps.map fun p => jobj [("name", jstr p.1), ("in", jstr "path"),
            ("required", jbool true), ("schema", jobj [("type", jstr "string")]),
            ("description", jstr ("Path parameter: " ++ p.1))]
        else []
    | none => []
  let queryParams := match request.query with
    | some qs =>
        if qs.length > 0 then
          qs.map fun q => jobj [("name", jstr q.1), ("in", jstr "query"),
            ("required", jbool false),
            ("schema", jobj [("type",
              jstr (if typeofStr q.2 = "number" then "number" else "string"))]),
            ("description", jstr ("Query parameter: " ++ q.1))]
        else []
    | none => []
  let headerParams := match request.headers with
    | some hs =>
        (hs.filter fun h =>
            relevantHeaders.contains (lowerStr h.1) || strStartsWith (lowerStr h.1) "x-").map
          fun h => jobj [("name", jstr h.1), ("in", jstr "header"),
            ("required", jbool false), ("schema", jobj [("type", jstr "string")]),
            ("description", jstr ("Header: " ++ h.1))]
    | none => []
  pathParams ++ queryParams ++ headerParams

/-- Option-valued `mapM` over a list, written as a plain recursion so
that concrete runs reduce in the kernel. -/
def mapMOpt {α β : Type} (f : α → Option β) : List α → Option (List β)
  | [] => some []
  | x :: xs =>
      match f x with
      | none => none
      | some y => (mapMOpt f xs).map fun ys => y :: ys

/-- Embedding of `OpenAPIGenerator.generateSchemaFromData`, the schema
synthesizer.  `fuel` bounds the recursion depth (the JavaScript call
stack); `none` means the depth budget ran out, which a real run never
hits for any finite input.  The `JSON.parse` re-parse attempt on strings
whose first character is `[` or `\x7b` goes through the host oracle. -/
def generateSchemaFromData (host : Host) : Nat → JVal → Option JVal
  | 0, _ => none
  | n + 1, data =>
    match data with
    | jnull => some (jobj [("type", jstr "null")])
    | junde => some (jobj [("type", jstr "null")])
    | jbool _ => some (jobj [("type", jstr "boolean")])
    | jnum q => some (jobj [("type", jstr "number"), ("example", jnum q)])
    | jstr s =>
        if strStartsWith s "[" || strStartsWith s "\x7b" then
          match host.jsonParse s with
          | some parsed => generateSchemaFromData host n parsed
          | none => some (jobj [("type", jstr "string"), ("example", jstr s)])
        else some (jobj [("type", jstr "string"), ("example", jstr s)])
    | jarr xs =>
        match xs with
        | [] => some (jobj [("type", jstr "array"), ("items", jobj [("type", jstr "string")])])
        | x :: _ =>
            (generateSchemaFromData host n x).map fun si =>
              jobj [("type", jstr "array"), ("items", si)]
    | jobj fs =>
        match mapMOpt (fun p => (generateSchemaFromData host n p.2).map fun s => (p.1, s)) fs with
        | none => none
        | some ps =>
            let required := (fs.filter fun p => p.2 != jnull && p.2 != junde).map (·.1)
            some (jobj ([("type", jstr "object"), ("properties", jobj ps)] ++
              (if required.length > 0 then [("required", jarr (required.map jstr))] else []) ++
              [("example", jobj fs)]))
    | jhost _ => some (jobj [("type", jstr "string")])

/-- Reference schema synthesizer transcribed from the SPECIFICATION's
case analysis (spec section 4.1), to be compared with the embedding of
the source: null/undefined give a null schema; booleans a boolean
schema; numbers a number schema with the value as example; a string
whose first character is `[` or `\x7b` is JSON-parsed and on success the
function recurses into the parsed value, otherwise (and for any other
string) a string schema with example; the empty array gets a string
items placeholder and a nonempty array takes its items schema from the
first element only; an object maps to an object schema with recursive
properties, `required` listing exactly the keys whose value is non-null
and omitted when empty, and the original object as example; any other
runtime type falls back to a string schema. -/
def schemaFromDataSpec (host : Host) : Nat → JVal → Option JVal
  | 0, _ => none
  | n + 1, data =>
    match data with
    | jnull => some (jobj [("type", jstr "null")])
    | junde => some (jobj [("type", jstr "null")])
    | jbool _ => some (jobj [("type", jstr "boolean")])
    | jnum q => some (jobj [("type", jstr "number"), ("example", jnum q)])
    | jstr s =>
        let plain := jobj [("type", jstr "string"), ("example", jstr s)]
        if strStartsWith s "[" || strStartsWith s "\x7b" then
          match host.jsonParse s with
          | some parsed => schemaFromDataSpec host n parsed
          | none => some plain
        else some plain
    | jarr [] => some (jobj [("type", jstr "array"), ("items", jobj [("type", jstr "string")])])
    | jarr (x :: _) =>
        (schemaFromDataSpec host n x).map fun si => jobj [("type", jstr "array"), ("items", si)]
    | jobj fs =>
        (mapMOpt (fun p => (schemaFromDataSpec host n p.2).map fun s => (p.1, s)) fs).map fun ps =>
          let required := (fs.filter fun p => p.2 != jnull && p.2 != junde).map (·.1)
          jobj ([("type", jstr "object"), ("properties", jobj ps)] ++
            (if required = [] then [] else [("required", jarr (required.map jstr))]) ++
            [("example", jobj fs)])
    | jhost _ => some (jobj [("type", jstr "string")])

/-- Embedding of `OpenAPIGenerator.getStatusDescription`. -/
def getStatusDescription (sc : Int) : String :=
  if sc = 200 then "OK"
  else if sc = 201 then "Created"
  else if sc = 204 then "No Content"
  else if sc = 400 then "Bad Request"
  else if sc = 401 then "Unauthorized"
  else if sc = 403 then "Forbidden"
  else if sc = 404 then "Not Found"
  else if sc = 500 then "Internal Server Error"
  else "Status " ++ toString sc

/-- JavaScript `s.split(';')[0]`. -/
def takeBeforeSemicolon (s : String) : String :=
  match splitOnChar ';' s with
  | x :: _ => x
  | [] => ""

/-- JavaScript `s.trim()` on the ASCII whitespace range. -/
def trimStr (s : String) : String :=
  String.mk (((s.data.dropWhile isWsChar).reverse.dropWhile isWsChar).reverse)

/-- Content-type cleaning in `generateResponseContent`: value of the
response `content-type` header stripped of parameters, with empty or
`text/plain` results normalized to `application/json`. -/
def cleanContentType (response : RespRecord) : String :=
  let ct := match response.headers with
    | some hs =>
        match lookupAssoc "content-type" hs with
        | some v => if v ≠ "" then trimStr (takeBeforeSemicolon v) else "application/json"
        | none => "application/json"
    | none => "application/json"
  if ct = "" ∨ ct = "text/plain" then "application/json" else ct

/-- Builds the three-example block (`sanitized`, optional `actual`,
optional `types`) shared by the request-body and response-content
builders. -/
def exampleEntries (titles : String × String × String × String × String × String)
    (body : JVal) (bodyActual bodyTypes : Option JVal) : List (String × JVal) :=
  [("sanitized", jobj [("summary", jstr titles.1), ("description", jstr titles.2.1),
    ("value", body)])] ++
  (match bodyActual with
   | some ba =>
       if jsTruthy ba then
         [("actual", jobj [("summary", jstr titles.2.2.1),
           ("description", jstr titles.2.2.2.1), ("value", ba)])]
       else []
   | none => []) ++
  (match bodyTypes with
   | some bt =>
       if jsTruthy bt then
         [("types", jobj [("summary", jstr titles.2.2.2.2.1),
           ("description", jstr titles.2.2.2.2.2), ("value", bt)])]
       else []
   | none => [])

/-- Embedding of `OpenAPIGenerator.generateRequestBody`: `null` (here
`none`) when the request has no body or an empty-keyed body, otherwise a
content block keyed by the request content-type with the synthesized
schema and, when enabled, the sanitized/actual/types examples. -/
def generateRequestBody (host : Host) (fuel : Nat) (includeExamples : Bool)
    (request : ReqCapture) : Option JVal :=
  if !optTruthy request.body || objectKeysLength (request.body.getD junde) = 0 then none
  else
    let b := request.body.getD junde
    let contentType := match request.contentType with
      | some ct => if ct ≠ "" then ct else "application/json"
      | none => "application/json"
    let schema := (generateSchemaFromData host fuel b).getD jnull
    let inner := [("schema", schema)] ++
      (if includeExamples then
        [("examples", jobj (exampleEntries
          ("Sanitized Request Body (Safe to store)",
           "Request body with sensitive data redacted",
           "Actual Request Body (For reference)",
           "Complete request body with actual values",
           "Data Types Analysis",
           "Data type analysis for each field") b request.bodyActual request.bodyTypes))]
       else [])
    some (jobj [("description", jstr "Request body"),
      ("content", jobj [(contentType, jobj inner)]),
      ("required", jbool true)])

/-- Embedding of `OpenAPIGenerator.generateResponseContent`. -/
def generateResponseContent (host : Host) (fuel : Nat) (includeExamples : Bool)
    (response : RespRecord) : JVal :=
  let contentType := cleanContentType response
  if !optTruthy response.body then
    jobj [(contentType, jobj [("schema",
      jobj [("type", jstr "string"), ("description", jstr "Empty response")])])]
  else
    let b := response.body.getD junde
    let schema := (generateSchemaFromData host fuel b).getD jnull
    let inner := [("schema", schema)] ++
      (if includeExamples then
        [("examples", jobj (exampleEntries
          ("Sanitized Response Body (Safe to store)",
           "Response body with sensitive data redacted",
           "Actual Response Body (For reference)",
           "Complete response body with actual values",
           "Data Types Analysis",
           "Data type analysis for each field") b response.bodyActual response.bodyTypes))]
       else [])
    jobj [(contentType, jobj inner)]

/-- Embedding of `OpenAPIGenerator.generateResponseHeaders`. -/
def generateResponseHeadersJ (response : RespRecord) : JVal :=
  match response.headers with
  | none => jobj []
  | some hs =>
      jobj (hs.map fun h => (h.1,
        jobj [("description", jstr ("Response header: " ++ h.1)),
          ("schema", jobj [("type", jstr "string")])]))

/-- The static client/server error schema of `generateResponses`. -/
def errorResponseBlock (description : String) : JVal :=
  jobj [("description", jstr description),
    ("content", jobj [("application/json", jobj [("schema",
      jobj [("type", jstr "object"), ("properties",
        jobj [("error", jobj [("type", jstr "string"), ("description", jstr "Error message")]),
          ("code", jobj [("type", jstr "string"), ("description", jstr "Error code")])])])])])]

/-- Embedding of `OpenAPIGenerator.generateResponses`: the observed
status code entry plus generic `4xx`/`5xx` boilerplate for error
statuses. -/
def generateResponses (host : Host) (fuel : Nat) (includeExamples : Bool)
    (response : RespRecord) : JVal :=
  let sc := response.statusCode
  jobj ([(toString sc, jobj [("description", jstr (getStatusDescription sc)),
    ("content", generateResponseContent host fuel includeExamples response),
    ("headers", generateResponseHeadersJ response)])] ++
    (if sc ≥ 400 then [("4xx", errorResponseBlock "Client Error")] else []) ++
    (if sc ≥ 500 then [("5xx", errorResponseBlock "Server Error")] else []))

/-- Embedding of `OpenAPIGenerator.generateSecurity`: bearer security
exactly when the request carries a truthy `authorization` header. -/
def generateSecurity (request : ReqCapture) : JVal :=
  match request.headers with
  | some hs =>
      match lookupAssoc "authorization" hs with
      | some v => if v ≠ "" then jarr [jobj [("bearerAuth", jarr [])]] else jarr []
      | none => jarr []
  | none => jarr []

/-- JavaScript `x || null` on a possibly-absent value. -/
def jsOrNull (o : Option JVal) : JVal :=
  match o with
  | some v => if jsTruthy v then v else jnull
  | none => jnull

/-- JavaScript `x || false` on a possibly-absent boolean. -/
def optBoolTruthy (o : Option Bool) : Bool :=
  o.getD false

/-- A sensitive-field descriptor as it is serialized into the document. -/
def sfieldToJVal (f : SField) : JVal :=
  jobj [("path", jstr f.path), ("field", jstr f.field), ("type", jstr f.type),
    ("actualValue", f.actualValue)]

/-- The expression `endpointData.metadata?.capturedAt || new
Date().toISOString()`; the clock read is the `now` parameter. -/
def capturedAtOr (r : EndpointRecord) (now : String) : String :=
  match r.metadata with
  | some m => if m.capturedAt ≠ "" then m.capturedAt else now
  | none => now

/-- Embedding of `OpenAPIGenerator.convertToOpenAPIPathItem`: assembles
the Operation object, the optional `x-actual-data` extension (request
side, response side, or their spread-merge), and the optional request
body block, in JavaScript key-insertion order. -/
def convertToOpenAPIPathItem (opts : GenOptions) (host : Host) (fuel : Nat) (now : String)
    (r : EndpointRecord) : JVal :=
  let request := r.request
  let response := r.response
  let baseFields := [
    ("summary", jstr (generateOperationSummary request)),
    ("description", jstr (generateOperationDescription r)),
    ("operationId", jstr (generateOperationId request)),
    ("tags", jarr ((generateTags opts.groupByPath request).map jstr)),
    ("parameters", jarr (generateParameters request)),
    ("responses", generateResponses host fuel opts.includeExamples response),
    ("security", generateSecurity request),
    ("deprecated", jbool false)]
  let reqActual := optTruthy request.bodyActual || optBoolTruthy request.hasSensitiveData
  let reqXFields := [
    ("requestBody", jsOrNull request.bodyActual),
    ("hasSensitiveData", jbool (optBoolTruthy request.hasSensitiveData)),
    ("sensitiveFields", jarr ((request.sensitiveFields.getD []).map sfieldToJVal)),
    ("dataTypes", jsOrNull request.bodyTypes),
    ("capturedAt", jstr (capturedAtOr r now))]
  let respActual := optTruthy response.bodyActual || optBoolTruthy response.hasSensitiveData
  let respXFields := [
    ("responseBody", jsOrNull response.bodyActual),
    ("responseHasSensitiveData", jbool (optBoolTruthy response.hasSensitiveData)),
    ("responseSensitiveFields", jarr ((response.sensitiveFields.getD []).map sfieldToJVal)),
    ("responseDataTypes", jsOrNull response.bodyTypes)]
  let xFields :=
    if respActual then some (jobj ((if reqActual then reqXFields else []) ++ respXFields))
    else if reqActual then some (jobj reqXFields)
    else none
  let withX := baseFields ++ (match xFields with
    | some x => [("x-actual-data", x)]
    | none => [])
  let withBody := withX ++ (match generateRequestBody host fuel opts.includeExamples request with
    | some rb => [("requestBody", rb)]
    | none => [])
  jobj withBody

/-- Embedding of `OpenAPIGenerator.addTagForPath`: register a tag for the
first path segment unless one of that name already exists. -/
def addTagForPath (path : String) (tags : List (String × String)) : List (String × String) :=
  match splitPathSegs path with
  | tagName :: _ =>
      if (tags.find? fun t => t.1 == tagName).isSome then tags
      else tags ++ [(tagName, "Operations for " ++ tagName)]
  | [] => tags

/-- The record rewrite at the top of `addEndpoint`: the request path is
replaced by its normalized form and the original path is kept alongside. -/
def normalizeRecordPath (r : EndpointRecord) : EndpointRecord :=
  { r with request := { r.request with
      path := normalizePathForParameterization r.request.path
      originalPath := some r.request.path } }

/-- Embedding of `OpenAPIGenerator.addEndpoint` as a state transition.
Returns the path item the call returns, the generator state after the
call, and whether the call performed a save (`autoSave` reached the
`saveSpec` step).  When change detection is on and the stored hash for
`"<method>:<normalizedPath>"` equals the current record's hash, the call
returns the freshly built path item with the state untouched and no
save. -/
def addEndpoint (opts : GenOptions) (host : Host) (fuel : Nat) (now : String)
    (st : GenState) (r : EndpointRecord) : JVal × GenState × Bool :=
  let r' := normalizeRecordPath r
  let normalizedPath := r'.request.path
  let pathItem := convertToOpenAPIPathItem opts host fuel now r'
  let endpointKey := r.request.method ++ ":" ++ normalizedPath
  let currentHash := calculateEndpointHash r'
  if opts.detectChanges ∧ lookupAssoc endpointKey st.endpointHashes = some currentHash then
    (pathItem, st, false)
  else
    let st1 := { st with endpointHashes := setAssoc endpointKey currentHash st.endpointHashes }
    let existing := (lookupAssoc normalizedPath st1.paths).getD []
    let st2 := { st1 with
      paths := setAssoc normalizedPath (setAssoc (lowerStr r.request.method) pathItem existing)
        st1.paths }
    let st3 := if opts.groupByPath then { st2 with tags := addTagForPath normalizedPath st2.tags }
      else st2
    (pathItem, st3, opts.autoSave)

/-- Options attached to one collection assignment by
`determineCollectionAssignments` (the source field `pathPrefix` is named
`pathPrefixOpt` here). -/
structure AssignOpts where
  version : Option String := none
  groupByMethod : Option Bool := none
  pathPrefixOpt : Option String := none
  statusCategory : Option String := none
  environment : Option String := none
deriving DecidableEq

/-- One target collection for a capture record. -/
structure Assignment where
  collectionName : String
  options : AssignOpts
deriving DecidableEq

/-- Rule set consumed by `addEndpointWithRules`; `custom` is the optional
caller-supplied assignment function. -/
structure Rules where
  defaultCollection : Option String := none
  versionBased : Bool := false
  methodBased : Bool := false
  pathBased : Bool := false
  statusBased : Bool := false
  environmentBased : Bool := false
  environment : Option String := none
  custom : Option (EndpointRecord → List Assignment) := none

/-- Embedding of `CollectionManager.getStatusCategory`. -/
def getStatusCategory (sc : Int) : String :=
  if 200 ≤ sc ∧ sc < 300 then "Success"
  else if 300 ≤ sc ∧ sc < 400 then "Redirect"
  else if 400 ≤ sc ∧ sc < 500 then "Client Error"
  else if 500 ≤ sc then "Server Error"
  else "Unknown"

/-- Embedding of `CollectionManager.determineCollectionAssignments`: the
default collection always fires; the version, method, path, status and
environment rules each contribute one target when their condition holds;
a custom function may append arbitrary further assignments. -/
def determineCollectionAssignments (r : EndpointRecord) (rules : Rules) : List Assignment :=
  let defName := match rules.defaultCollection with
    | some s => if s ≠ "" then s else "Main API"
    | none => "Main API"
  [⟨defName, {}⟩] ++
  (if rules.versionBased then
    match r.metadata with
    | some m =>
        match m.version with
        | some v => if v ≠ "" then [⟨"API v" ++ v, { version := some v }⟩] else []
        | none => []
    | none => []
   else []) ++
  (if rules.methodBased then
    [⟨r.request.method ++ " Endpoints", { groupByMethod := some true }⟩]
   else []) ++
  (if rules.pathBased then
    match splitPathSegs r.request.path with
    | p :: _ => [⟨p ++ " API", { pathPrefixOpt := some p }⟩]
    | [] => []
   else []) ++
  (if rules.statusBased then
    [⟨getStatusCategory r.response.statusCode ++ " Responses",
      { statusCategory := some (getStatusCategory r.response.statusCode) }⟩]
   else []) ++
  (if rules.environmentBased then
    match rules.environment with
    | some e => if e ≠ "" then [⟨e ++ " Environment", { environment := some e }⟩] else []
    | none => []
   else []) ++
  (match rules.custom with
   | some f => f r
   | none => [])

/-- One entry of the list `addEndpointWithRules` returns: the target
name, the path item on success or the error message on failure, and the
success flag. -/
structure RuleResult where
  collectionName : String
  pathItem : Option JVal := none
  error : Option String := none
  success : Bool
deriving DecidableEq

/-- The `assignments.forEach` loop of `addEndpointWithRules`: each target
is attempted in order through `addE` (the embedding of the manager's
`addEndpoint`, which may throw, modelled by `Except`, and mutates manager
and storage state, modelled by threading `S`); an exception is caught and
recorded, never aborting the remaining targets. -/
def runAssignments {S : Type} (addE : S → Assignment → Except String JVal × S) :
    S → List Assignment → List RuleResult × S
  | s, [] => ([], s)
  | s, a :: rest =>
      match addE s a with
      | (.ok p, s') =>
          let next := runAssignments addE s' rest
          (⟨a.collectionName, some p, none, true⟩ :: next.1, next.2)
      | (.error e, s') =>
          let next := runAssignments addE s' rest
          (⟨a.collectionName, none, some e, false⟩ :: next.1, next.2)

/-- Embedding of `CollectionManager.addEndpointWithRules`. -/
def addEndpointWithRules {S : Type} (addE : S → Assignment → Except String JVal × S)
    (s0 : S) (r : EndpointRecord) (rules : Rules) : List RuleResult × S :=
  runAssignments addE s0 (determineCollectionAssignments r rules)

/-- A value slot in the explicit-heap model: a primitive, or a reference
to a heap node.  The heap model exists to talk about cyclic object
graphs, which the tree type `JVal` cannot represent. -/
inductive HVal where
  | hPrim (v : JVal)
  | hRef (r : Nat)
deriving DecidableEq

/-- A heap node: an array of slots or an object with named slots. -/
inductive HNode where
  | hArr (xs : List HVal)
  | hObj (fs : List (String × HVal))
deriving DecidableEq

/-- Reference lookup in the heap. -/
def lookupNat {α : Type} (k : Nat) : List (Nat × α) → Option α
  | [] => none
  | (k', v) :: rest => if k' = k then some v else lookupNat k rest

/-- Mutable state of the heap-level enhance walk: the sanitized heap
being mutated, the sensitive flag, and the (path, field) pairs recorded
so far (the descriptor's type and actual-value components mirror the
same traversal and are omitted from the heap model). -/
structure HeapSt where
  heap : List (Nat × HNode)
  hasSensitiveData : Bool
  sens : List (String × String)
deriving DecidableEq

/-- Overwrite field `k` of object node `r` with `v`. -/
def updateNodeField (h : List (Nat × HNode)) (r : Nat) (k : String) (v : HVal) :
    List (Nat × HNode) :=
  h.map fun p =>
    if p.1 = r then
      (p.1, match p.2 with
        | HNode.hObj fs => HNode.hObj (setAssoc k v fs)
        | n => n)
    else p

/-- Thread a fallible step through a list, stopping at the first failure. -/
def threadListO {α σ : Type} (f : σ → α → Option σ) : σ → List α → Option σ
  | s, [] => some s
  | s, x :: xs =>
      match f s x with
      | none => none
      | some s' => threadListO f s' xs

/-- Embedding of `EndpointCapture._recursiveEnhance` over the explicit
heap, keeping its recursion structure exactly: array elements that are
truthy objects are recursed into; object fields are either redacted (when
the key matches) or recursed into when they hold a truthy object.  THE
SOURCE MAINTAINS NO VISITED SET HERE, so the only bound on the recursion
is the call stack, modelled by `fuel`; `none` means the walk exceeded
every finite stack depth available to it.  A `hPrim JVal.jnull` slot is a
falsy object and is not recursed into, as in the source. -/
def enhanceHeap (sf : List String) : Nat → HeapSt → HVal → List String → Option HeapSt
  | 0, _, _, _ => none
  | _ + 1, st, HVal.hPrim _, _ => some st
  | n + 1, st, HVal.hRef r, path =>
      match lookupNat r st.heap with
      | none => some st
      | some (HNode.hArr xs) =>
          threadListO (fun s ix =>
            match ix.2 with
            | HVal.hRef r' => enhanceHeap sf n s (HVal.hRef r') (path ++ [toString ix.1])
            | HVal.hPrim _ => some s) st xs.enum
      | some (HNode.hObj fs) =>
          threadListO (fun s kv =>
            if matchesSensitiveField sf kv.1 then
              some ⟨updateNodeField s.heap r kv.1 (HVal.hPrim redactedMarker), true,
                s.sens ++ [(joinDots (path ++ [kv.1]), kv.1)]⟩
            else
              match kv.2 with
              | HVal.hRef r' => enhanceHeap sf n s (HVal.hRef r') (path ++ [kv.1])
              | HVal.hPrim _ => some s) st fs

mutual

/-- Redaction completeness predicate: in this value every object entry
whose key matches a configured sensitive substring holds exactly the
redaction marker (so nothing under such a key survives), at every
nesting depth, including inside arrays. -/
def redactedOK (sf : List String) : JVal → Bool
  | jarr xs => redactedOKL sf xs
  | jobj fs => redactedOKF sf fs
  | _ => true

/-- List part of `redactedOK`. -/
def redactedOKL (sf : List String) : List JVal → Bool
  | [] => true
  | x :: xs => redactedOK sf x && redactedOKL sf xs

/-- Field part of `redactedOK`. -/
def redactedOKF (sf : List String) : List (String × JVal) → Bool
  | [] => true
  | (k, v) :: fs =>
      (if matchesSensitiveField sf k then beqV v redactedMarker else redactedOK sf v) &&
        redactedOKF sf fs

end

mutual

/-- Does the value contain no object key matching a sensitive substring,
at any nesting depth? -/
def noSensitiveKeys (sf : List String) : JVal → Bool
  | jarr xs => noSensitiveKeysL sf xs
  | jobj fs => noSensitiveKeysF sf fs
  | _ => true

/-- List part of `noSensitiveKeys`. -/
def noSensitiveKeysL (sf : List String) : List JVal → Bool
  | [] => true
  | x :: xs => noSensitiveKeys sf x && noSensitiveKeysL sf xs

/-- Field part of `noSensitiveKeys`. -/
def noSensitiveKeysF (sf : List String) : List (String × JVal) → Bool
  | [] => true
  | (k, v) :: fs =>
      !matchesSensitiveField sf k && noSensitiveKeys sf v && noSensitiveKeysF sf fs

end


theorem redactedOK_of_not_truthyObject (sf : List String) (v : JVal)
    (h : isTruthyObject v = false) : redactedOK sf v = true := by
  cases v <;> simp [redactedOK] <;> simp [isTruthyObject, jsTruthy, typeofStr] at h

theorem beqV_self (v : JVal) : beqV v v = true :=
  (beqV_iff v v).mpr rfl

mutual

theorem recursiveSanitize_redactedOK (sf : List String) :
    ∀ v : JVal, redactedOK sf (recursiveSanitize sf v) = true
  | jnull => rfl
  | junde => rfl
  | jbool _ => rfl
  | jnum _ => rfl
  | jstr _ => rfl
  | jhost _ => rfl
  | jarr xs => by
      simp only [recursiveSanitize, redactedOK]
      exact recursiveSanitizeL_redactedOK sf xs
  | jobj fs => by
      simp only [recursiveSanitize, redactedOK]
      exact recursiveSanitizeF_redactedOK sf fs

theorem recursiveSanitizeL_redactedOK (sf : List String) :
    ∀ xs : List JVal, redactedOKL sf (recursiveSanitizeL sf xs) = true
  | [] => rfl
  | x :: xs => by
      simp only [recursiveSanitizeL, redactedOKL, Bool.and_eq_true]
      exact ⟨recursiveSanitize_redactedOK sf x, recursiveSanitizeL_redactedOK sf xs⟩

theorem recursiveSanitizeF_redactedOK (sf : List String) :
    ∀ fs : List (String × JVal), redactedOKF sf (recursiveSanitizeF sf fs) = true
  | [] => rfl
  | (k, v) :: fs => by
      simp only [recursiveSanitizeF, redactedOKF, Bool.and_eq_true]
      refine ⟨?_, recursiveSanitizeF_redactedOK sf fs⟩
      cases h : matchesSensitiveField sf k with
      | true => simp [h, beqV_self]
      | false => simp [h, recursiveSanitize_redactedOK sf v]

end

mutual

theorem recursiveEnhance_redactedOK (sf : List String) (host : Host) :
    ∀ (v : JVal) (path : List String),
      redactedOK sf (recursiveEnhance sf host v path).sanitized = true
  | jnull, _ => rfl
  | junde, _ => rfl
  | jbool _, _ => rfl
  | jnum _, _ => rfl
  | jstr _, _ => rfl
  | jhost _, _ => rfl
  | jarr xs, path => by
      simp only [recursiveEnhance, redactedOK]
      exact recursiveEnhanceL_redactedOK sf host xs 0 path
  | jobj fs, path => by
      simp only [recursiveEnhance, redactedOK]
      exact recursiveEnhanceF_redactedOK sf host fs path

theorem recursiveEnhanceL_redactedOK (sf : List String) (host : Host) :
    ∀ (xs : List JVal) (i : Nat) (path : List String),
      redactedOKL sf (recursiveEnhanceL sf host xs i path).sanitized = true
  | [], _, _ => rfl
  | x :: xs, i, path => by
      cases h : isTruthyObject x with
      | true =>
          simp only [recursiveEnhanceL, h, if_true, redactedOKL, Bool.and_eq_true]
          exact ⟨recursiveEnhance_redactedOK sf host x (path ++ [toString i]),
            recursiveEnhanceL_redactedOK sf host xs (i + 1) path⟩
      | false =>
          simp only [recursiveEnhanceL, h, Bool.false_eq_true, if_false, redactedOKL,
            Bool.and_eq_true]
          exact ⟨redactedOK_of_not_truthyObject sf x h,
            recursiveEnhanceL_redactedOK sf host xs (i + 1) path⟩

theorem recursiveEnhanceF_redactedOK (sf : List String) (host : Host) :
    ∀ (fs : List (String × JVal)) (path : List String),
      redactedOKF sf (recursiveEnhanceF sf host fs path).sanitized = true
  | [], _ => rfl
  | (k, v) :: fs, path => by
      cases h : matchesSensitiveField sf k with
      | true =>
          simp only [recursiveEnhanceF, h, if_true, redactedOKF, Bool.and_eq_true]
          exact ⟨by simp [h, beqV_self], recursiveEnhanceF_redactedOK sf host fs path⟩
      | false =>
          cases ho : isTruthyObject v with
          | true =>
              simp only [recursiveEnhanceF, h, Bool.false_eq_true, if_false, ho, if_true,
                redactedOKF, Bool.and_eq_true]
              exact ⟨by simp [h, recursiveEnhance_redactedOK sf host v (path ++ [k])],
                recursiveEnhanceF_redactedOK sf host fs path⟩
          | false =>
              simp only [recursiveEnhanceF, h, ho, Bool.false_eq_true, if_false, redactedOKF,
                Bool.and_eq_true]
              exact ⟨by simp [h, redactedOK_of_not_truthyObject sf v ho],
                recursiveEnhanceF_redactedOK sf host fs path⟩

end

mutual

theorem recursiveSanitize_frame (sf : List String) :
    ∀ v : JVal, noSensitiveKeys sf v = true → recursiveSanitize sf v = v
  | jnull, _ => rfl
  | junde, _ => rfl
  | jbool _, _ => rfl
  | jnum _, _ => rfl
  | jstr _, _ => rfl
  | jhost _, _ => rfl
  | jarr xs, h => by
      simp only [noSensitiveKeys] at h
      simp only [recursiveSanitize, recursiveSanitizeL_frame sf xs h]
  | jobj fs, h => by
      simp only [noSensitiveKeys] at h
      simp only [recursiveSanitize, recursiveSanitizeF_frame sf fs h]

theorem recursiveSanitizeL_frame (sf : List String) :
    ∀ xs : List JVal, noSensitiveKeysL sf xs = true → recursiveSanitizeL sf xs = xs
  | [], _ => rfl
  | x :: xs, h => by
      simp only [noSensitiveKeysL, Bool.and_eq_true] at h
      simp only [recursiveSanitizeL, recursiveSanitize_frame sf x h.1,
        recursiveSanitizeL_frame sf xs h.2]

theorem recursiveSanitizeF_frame (sf : List String) :
    ∀ fs : List (String × JVal), noSensitiveKeysF sf fs = true → recursiveSanitizeF sf fs = fs
  | [], _ => rfl
  | (k, v) :: fs, h => by
      simp only [noSensitiveKeysF, Bool.and_eq_true] at h
      have hk : matchesSensitiveField sf k = false := by simpa using h.1.1
      simp only [recursiveSanitizeF, hk, Bool.false_eq_true, if_false,
        recursiveSanitize_frame sf v h.1.2, recursiveSanitizeF_frame sf fs h.2]

end

mutual

theorem recursiveEnhance_frame (sf : List String) (host : Host) :
    ∀ (v : JVal) (path : List String), noSensitiveKeys sf v = true →
      (recursiveEnhance sf host v path).sanitized = v ∧
        (recursiveEnhance sf host v path).hasSensitiveData = false
  | jnull, _, _ => ⟨rfl, rfl⟩
  | junde, _, _ => ⟨rfl, rfl⟩
  | jbool _, _, _ => ⟨rfl, rfl⟩
  | jnum _, _, _ => ⟨rfl, rfl⟩
  | jstr _, _, _ => ⟨rfl, rfl⟩
  | jhost _, _, _ => ⟨rfl, rfl⟩
  | jarr xs, path, h => by
      simp only [noSensitiveKeys] at h
      have hl := recursiveEnhanceL_frame sf host xs 0 path h
      simp [recursiveEnhance, hl.1, hl.2]
  | jobj fs, path, h => by
      simp only [noSensitiveKeys] at h
      have hf := recursiveEnhanceF_frame sf host fs path h
      simp [recursiveEnhance, hf.1, hf.2]

theorem recursiveEnhanceL_frame (sf : List String) (host : Host) :
    ∀ (xs : List JVal) (i : Nat) (path : List String), noSensitiveKeysL sf xs = true →
      (recursiveEnhanceL sf host xs i path).sanitized = xs ∧
        (recursiveEnhanceL sf host xs i path).hasSensitiveData = false
  | [], _, _, _ => ⟨rfl, rfl⟩
  | x :: xs, i, path, h => by
      simp only [noSensitiveKeysL, Bool.and_eq_true] at h
      have hrest := recursiveEnhanceL_frame sf host xs (i + 1) path h.2
      cases ho : isTruthyObject x with
      | true =>
          have hx := recursiveEnhance_frame sf host x (path ++ [toString i]) h.1
          simp only [recursiveEnhanceL, ho, if_true]
          exact ⟨by simp [hx.1, hrest.1], by simp [hx.2, hrest.2]⟩
      | false =>
          simp only [recursiveEnhanceL, ho, Bool.false_eq_true, if_false]
          exact ⟨by simp [hrest.1], by simp [hrest.2]⟩

theorem recursiveEnhanceF_frame (sf : List String) (host : Host) :
    ∀ (fs : List (String × JVal)) (path : List String), noSensitiveKeysF sf fs = true →
      (recursiveEnhanceF sf host fs path).sanitized = fs ∧
        (recursiveEnhanceF sf host fs path).hasSensitiveData = false
  | [], _, _ => ⟨rfl, rfl⟩
  | (k, v) :: fs, path, h => by
      simp only [noSensitiveKeysF, Bool.and_eq_true] at h
      have hk : matchesSensitiveField sf k = false := by simpa using h.1.1
      have hrest := recursiveEnhanceF_frame sf host fs path h.2
      cases ho : isTruthyObject v with
      | true =>
          have hv := recursiveEnhance_frame sf host v (path ++ [k]) h.1.2
          simp only [recursiveEnhanceF, hk, Bool.false_eq_true, if_false, ho, if_true]
          exact ⟨by simp [hv.1, hrest.1], by simp [hv.2, hrest.2]⟩
      | false =>
          simp only [recursiveEnhanceF, hk, ho, Bool.false_eq_true, if_false]
          exact ⟨by simp [hrest.1], by simp [hrest.2]⟩

end

mutual

theorem noSensitiveKeys_nil : ∀ v : JVal, noSensitiveKeys [] v = true
  | jnull => rfl
  | junde => rfl
  | jbool _ => rfl
  | jnum _ => rfl
  | jstr _ => rfl
  | jhost _ => rfl
  | jarr xs => by
      simp only [noSensitiveKeys]
      exact noSensitiveKeysL_nil xs
  | jobj fs => by
      simp only [noSensitiveKeys]
      exact noSensitiveKeysF_nil fs

theorem noSensitiveKeysL_nil : ∀ xs : List JVal, noSensitiveKeysL [] xs = true
  | [] => rfl
  | x :: xs => by
      simp only [noSensitiveKeysL, Bool.and_eq_true]
      exact ⟨noSensitiveKeys_nil x, noSensitiveKeysL_nil xs⟩

theorem noSensitiveKeysF_nil : ∀ fs : List (String × JVal), noSensitiveKeysF [] fs = true
  | [] => rfl
  | (k, v) :: fs => by
      simp only [noSensitiveKeysF, Bool.and_eq_true]
      exact ⟨⟨rfl, noSensitiveKeys_nil v⟩, noSensitiveKeysF_nil fs⟩

end

theorem sanitizeHeaders_nil (headers : List (String × String)) :
    sanitizeHeaders [] headers = headers := by
  simp [sanitizeHeaders]

theorem enhanceDataCapture_nil (host : Host) (b : JVal) :
    (enhanceDataCapture [] host b).sanitized = b ∧
      (enhanceDataCapture [] host b).actual = b ∧
      (enhanceDataCapture [] host b).hasSensitiveData = false := by
  cases h : isTruthyObject b with
  | true =>
      have hr := recursiveEnhance_frame [] host b [] (noSensitiveKeys_nil b)
      simp [enhanceDataCapture, h, hr.1, hr.2]
  | false => simp [enhanceDataCapture, h]

theorem enhanceDataCapture_actual (sf : List String) (host : Host) (b : JVal) :
    (enhanceDataCapture sf host b).actual = b := by
  cases h : isTruthyObject b with
  | true => simp [enhanceDataCapture, h]
  | false => simp [enhanceDataCapture, h]

theorem sanitizeHeaders_lookup (sh : List String) (headers : List (String × String))
    (k : String) (hk : (sh.any fun s => lowerStr k == lowerStr s) = false) :
    lookupAssoc k (sanitizeHeaders sh headers) = lookupAssoc k headers := by
  induction headers with
  | nil => rfl
  | cons p rest ih =>
      by_cases hpk : p.1 = k
      · subst hpk
        simp [sanitizeHeaders, lookupAssoc, hk]
      · cases hm : (sh.any fun s => lowerStr p.1 == lowerStr s) with
        | true => simpa [sanitizeHeaders, lookupAssoc, hm, hpk] using ih
        | false => simpa [sanitizeHeaders, lookupAssoc, hm, hpk] using ih

/-- The change-detection key `"<method>:<normalizedPath>"` a record hashes
under in `addEndpoint`. -/
def endpointKeyOf (r : EndpointRecord) : String :=
  r.request.method ++ ":" ++ normalizePathForParameterization r.request.path

/-- The hash `addEndpoint` computes for a record (over the normalized
record, as in the source). -/
def currentHashOf (r : EndpointRecord) : HashData :=
  calculateEndpointHash (normalizeRecordPath r)

theorem addEndpoint_skip (opts : GenOptions) (host : Host) (fuel : Nat) (now : String)
    (st : GenState) (r : EndpointRecord) (hdc : opts.detectChanges = true)
    (h : lookupAssoc (endpointKeyOf r) st.endpointHashes = some (currentHashOf r)) :
    addEndpoint opts host fuel now st r =
      (convertToOpenAPIPathItem opts host fuel now (normalizeRecordPath r), st, false) := by
  have hkey : (normalizeRecordPath r).request.path = normalizePathForParameterization r.request.path := rfl
  simp only [addEndpoint, hkey]
  rw [if_pos]
  refine ⟨by simp [hdc], ?_⟩
  simpa [endpointKeyOf, currentHashOf] using h

theorem addEndpoint_after_lookup (opts : GenOptions) (host : Host) (fuel : Nat) (now : String)
    (st : GenState) (r : EndpointRecord) :
    lookupAssoc (endpointKeyOf r) ((addEndpoint opts host fuel now st r).2.1).endpointHashes =
      some (currentHashOf r) := by
  by_cases h : (opts.detectChanges = true) ∧
      lookupAssoc (endpointKeyOf r) st.endpointHashes = some (currentHashOf r)
  · rw [addEndpoint_skip opts host fuel now st r h.1 h.2]
    exact h.2
  · simp only [addEndpoint]
    rw [if_neg (by simpa [endpointKeyOf, currentHashOf] using h)]
    by_cases hg : opts.groupByPath = true <;>
      simp [hg, endpointKeyOf, currentHashOf, normalizeRecordPath, lookupAssoc_setAssoc]

theorem runAssignments_length {S : Type} (addE : S → Assignment → Except String JVal × S) :
    ∀ (asgs : List Assignment) (s : S),
      (runAssignments addE s asgs).1.length = asgs.length := by
  intro asgs
  induction asgs with
  | nil => intro s; rfl
  | cons a rest ih =>
      intro s
      cases hc : addE s a with
      | mk out s' =>
          cases out with
          | ok p => simp [runAssignments, hc, ih]
          | error e => simp [runAssignments, hc, ih]

/-- Shape invariant of one result entry relative to its assignment: the
entry names the assignment's collection, succeeds exactly when it carries
a path item, and fails exactly when it carries an error message. -/
def ruleResultMatches (p : RuleResult × Assignment) : Bool :=
  p.1.collectionName == p.2.collectionName &&
    (p.1.success == p.1.pathItem.isSome) && (p.1.success == !p.1.error.isSome)

theorem runAssignments_matches {S : Type} (addE : S → Assignment → Except String JVal × S) :
    ∀ (asgs : List Assignment) (s : S),
      (((runAssignments addE s asgs).1.zip asgs).all ruleResultMatches) = true := by
  intro asgs
  induction asgs with
  | nil => intro s; rfl
  | cons a rest ih =>
      intro s
      cases hc : addE s a with
      | mk out s' =>
          cases out with
          | ok p => simp [runAssignments, hc, ruleResultMatches, ih]
          | error e => simp [runAssignments, hc, ruleResultMatches, ih]

theorem runAssignments_error_continues {S : Type}
    (addE : S → Assignment → Except String JVal × S) (s : S) (a : Assignment)
    (asgs : List Assignment) (e : String) (s' : S) (h : addE s a = (.error e, s')) :
    (runAssignments addE s (a :: asgs)).1 =
      ⟨a.collectionName, none, some e, false⟩ :: (runAssignments addE s' asgs).1 := by
  simp [runAssignments, h]

theorem mapMOpt_congr {α β : Type} (f g : α → Option β) (h : ∀ a, f a = g a) :
    ∀ l : List α, mapMOpt f l = mapMOpt g l := by
  intro l
  induction l with
  | nil => rfl
  | cons x xs ih => simp [mapMOpt, h x, ih]

/-- A concrete host oracle for witnesses: no URL or date parses and
`JSON.parse` always fails. -/
def sampleHost : Host := ⟨fun _ => false, fun _ => false, fun _ => none⟩

/-- Concrete captured request used by witnesses. -/
def sampleRequest : ReqCapture := {
  method := "GET"
  path := "/api/users/7"
  headers := some [("content-type", "application/json")]
  body := some (jobj [("id", jnum 7)])
  bodyActual := some (jobj [("id", jnum 7)]) }

/-- Concrete captured response used by witnesses. -/
def sampleResponse : RespRecord := {
  statusCode := 200
  body := some (jobj [("ok", jbool true)])
  duration := some 12
  endTime := 100 }

/-- Concrete capture record used by witnesses. -/
def sampleRecord : EndpointRecord := {
  request := sampleRequest
  response := sampleResponse
  metadata := some { capturedAt := "2023-01-01" } }

/-- `sampleRecord` with only the response duration changed (the timing
field the specification calls ignored). -/
def sampleRecordSlow : EndpointRecord :=
  { sampleRecord with response := { sampleResponse with duration := some 99 } }

/-- `sampleRecord` with only the response body changed. -/
def sampleRecordBody2 : EndpointRecord :=
  { sampleRecord with response := { sampleResponse with body := some (jobj [("ok", jbool false)]) } }

/-- The sanitized-clone heap of the source's own regression test input
`const circularObj = \x7b name: 'test' \x7d; circularObj.self = circularObj`:
one object node referring to itself. -/
def cyclicSelfHeapNodes : List (Nat × HNode) :=
  [(0, HNode.hObj [("name", HVal.hPrim (jstr "test")), ("self", HVal.hRef 0)])]

/-- An assignment-step function for the rule-fanout witness: the default
collection accepts the write, every other target's storage write fails. -/
def failingAddE : Nat → Assignment → Except String JVal × Nat := fun s a =>
  if a.collectionName = "Main API" then (Except.ok jnull, s + 1)
  else (Except.error "storage write failed", s + 1)

/-- The path-based assignment `determineCollectionAssignments` derives
from `sampleRecord`. -/
def sampleAssignFail : Assignment := ⟨"api API", { pathPrefixOpt := some "api" }⟩

/-- C3: the claim states that `normalizePathForParameterization` strips a
single trailing slash and replaces exactly the path segments consisting
purely of decimal digits, leaving all other segments unchanged.  The
second regex `/\/\d+/g` in fact replaces every slash-led digit RUN, so a
segment that starts with digits but continues with other characters is
partially rewritten rather than left unchanged: `"/users/42abc"` becomes
`"/users/\x7bid\x7dabc"`, not `"/users/42abc"`. -/
theorem C3_normalize_counterexample :
    normalizePathForParameterization "/users/42abc" = "/users/{id}abc" ∧
      normalizePathForParameterization "/users/42abc" ≠ "/users/42abc" := by
  decide

/-- C3 (amended): for every nonempty list of slash-separated segments in
which no segment is empty, none contains a slash, and every segment is
either purely decimal digits or does not start with a digit,
`normalizePathForParameterization` replaces exactly the purely numeric
segments with the `id` placeholder and leaves the others unchanged, and
one trailing slash is stripped; in particular the claim's examples
`"/users/42/"`, `"/users/42/orders/7"` and `"/health"` behave as stated. -/
theorem C3_normalize_amended (ss : List (List Char)) (h1 : ss ≠ [])
    (h2 : ∀ s ∈ ss, s ≠ [] ∧ '/' ∉ s ∧ (s.all Char.isDigit = true ∨ headIsDigit s = false)) :
    normalizePathForParameterization (String.mk (joinSegs ss)) =
        String.mk (joinSegs (ss.map normSeg)) ∧
      normalizePathForParameterization (String.mk (joinSegs ss ++ ['/'])) =
        String.mk (joinSegs (ss.map normSeg)) := by
  have hseg : ∀ s ∈ ss, s ≠ [] ∧ '/' ∉ s := fun s hs => ⟨(h2 s hs).1, (h2 s hs).2.1⟩
  constructor
  · show String.mk (replaceIdRuns false (stripTrailingSlashL (joinSegs ss))) = _
    rw [stripTrailingSlashL_joinSegs ss h1 hseg, replaceIdRuns_joinSegs ss h2]
  · show String.mk (replaceIdRuns false (stripTrailingSlashL (joinSegs ss ++ ['/']))) = _
    rw [stripTrailingSlashL_append_slash, replaceIdRuns_joinSegs ss h2]

/-- Witness for C3: the amended theorem applied to the concrete segment
lists of the claim's three examples. -/
theorem C3_normalize_amended_witness :
    normalizePathForParameterization "/users/42/" = "/users/{id}" ∧
      normalizePathForParameterization "/users/42/orders/7" = "/users/{id}/orders/{id}" ∧
      normalizePathForParameterization "/health" = "/health" := by
  refine ⟨?_, ?_, ?_⟩
  · exact (C3_normalize_amended [['u', 's', 'e', 'r', 's'], ['4', '2']]
      (by decide) (by decide)).2
  · exact (C3_normalize_amended
      [['u', 's', 'e', 'r', 's'], ['4', '2'], ['o', 'r', 'd', 'e', 'r', 's'], ['7']]
      (by decide) (by decide)).1
  · exact (C3_normalize_amended [['h', 'e', 'a', 'l', 't', 'h']] (by decide) (by decide)).1

/-- C4: for every sensitive-substring configuration and every input
value, each of the three body-sanitization paths of the source
(`_recursiveSanitize`, `_sanitizeBody`, and the capture path
`_enhanceDataCapture`) produces an output in which every object key whose
lowercase form contains a configured sensitive substring (such as
`"password"`), at any nesting depth including inside arrays of objects,
holds exactly the redaction marker, so no descendant of such a key
survives unredacted. -/
theorem C4_redaction_completeness (sf : List String) (host : Host) (v : JVal) :
    redactedOK sf (recursiveSanitize sf v) = true ∧
      redactedOK sf (sanitizeBody sf v) = true ∧
      redactedOK sf (enhanceDataCapture sf host v).sanitized = true := by
  refine ⟨recursiveSanitize_redactedOK sf v, ?_, ?_⟩
  · unfold sanitizeBody
    cases h : (jsTruthy v && (typeofStr v == "object")) with
    | true => simp [recursiveSanitize_redactedOK sf v]
    | false =>
        simp only [Bool.false_eq_true, if_false]
        exact redactedOK_of_not_truthyObject sf v (by simpa [isTruthyObject] using h)
  · unfold enhanceDataCapture
    cases h : isTruthyObject v with
    | true => simp [recursiveEnhance_redactedOK sf host v []]
    | false => simp [redactedOK_of_not_truthyObject sf v h]

/-- C5: `generateSchemaFromData` coincides, for every host oracle, depth
budget and input value, with the reference case analysis transcribed
from the specification (null/undefined, boolean, number, JSON-looking
strings re-parsed and recursed, first-element-only array items,
object properties with `required` listing exactly the non-null keys and
omitted when empty, and the string fallback). -/
theorem C5_schema_reference_equivalence (host : Host) :
    ∀ (n : Nat) (v : JVal), generateSchemaFromData host n v = schemaFromDataSpec host n v := by
  intro n
  induction n with
  | zero => intro v; rfl
  | succ n ih =>
      intro v
      cases v with
      | jnull => rfl
      | junde => rfl
      | jbool b => rfl
      | jnum q => rfl
      | jstr s =>
          simp only [generateSchemaFromData, schemaFromDataSpec]
          cases h : (strStartsWith s "[" || strStartsWith s "\x7b") with
          | true =>
              simp only [h, if_true]
              cases hp : host.jsonParse s with
              | none => rfl
              | some parsed => simp [ih parsed]
          | false => simp [h]
      | jarr xs =>
          cases xs with
          | nil => rfl
          | cons x rest =>
              simp only [generateSchemaFromData, schemaFromDataSpec]
              rw [ih x]
      | jobj fs =>
          simp only [generateSchemaFromData, schemaFromDataSpec]
          rw [mapMOpt_congr (fun p => (generateSchemaFromData host n p.2).map fun s => (p.1, s))
            (fun p => (schemaFromDataSpec host n p.2).map fun s => (p.1, s))
            (fun p => by simp only []; rw [ih p.2]) fs]
          cases hm : mapMOpt (fun p => (schemaFromDataSpec host n p.2).map fun s => (p.1, s)) fs with
          | none => rfl
          | some ps =>
              simp only [Option.map_some']
              cases hq : (fs.filter fun p => p.2 != jnull && p.2 != junde).map (·.1) with
              | nil => simp [hq]
              | cons q qs => simp [hq]
      | jhost t => rfl

/-- C6: the claim states that sanitizing a native object containing a
self-reference during capture terminates without throwing, protected by
a visited set.  The capture path `_recursiveEnhance` maintains NO visited
set, so on the source's own regression-test input (an object whose
`self` field refers back to itself) the walk recurses once per stack
frame and exhausts any finite stack: in the heap embedding it returns
`none` for every fuel value, i.e. it diverges instead of terminating. -/
theorem C6_cyclic_enhance_diverges :
    ∀ (n : Nat) (b : Bool) (sens : List (String × String)) (path : List String),
      enhanceHeap [] n ⟨cyclicSelfHeapNodes, b, sens⟩ (HVal.hRef 0) path = none := by
  intro n
  induction n with
  | zero => intro b sens path; rfl
  | succ n ih =>
      intro b sens path
      have ih' := ih b sens (path ++ ["self"])
      simp only [cyclicSelfHeapNodes] at ih'
      simp [enhanceHeap, cyclicSelfHeapNodes, lookupNat, threadListO, matchesSensitiveField,
        strIncludes, ih']

/-- C7: `addEndpointWithRules` evaluates every determined assignment:
the result list has exactly one entry per target, each entry names its
target's collection and carries a success flag that holds exactly when a
path item is present and fails exactly when an error message is present;
and a failing target never aborts the others -- after a failure the
remaining targets are still processed from the post-failure state. -/
theorem C7_rule_assignment_isolation {S : Type}
    (addE : S → Assignment → Except String JVal × S) (s0 : S) (r : EndpointRecord)
    (rules : Rules) (a : Assignment) (asgs : List Assignment) (s s' : S) (e : String) :
    (addEndpointWithRules addE s0 r rules).1.length =
        (determineCollectionAssignments r rules).length ∧
      (((addEndpointWithRules addE s0 r rules).1.zip
          (determineCollectionAssignments r rules)).all ruleResultMatches) = true ∧
      (addE s a = (.error e, s') →
        (runAssignments addE s (a :: asgs)).1 =
          ⟨a.collectionName, none, some e, false⟩ :: (runAssignments addE s' asgs).1) :=
  ⟨runAssignments_length addE _ s0, runAssignments_matches addE _ s0,
    fun h => runAssignments_error_continues addE s a asgs e s' h⟩

/-- Witness for C7: the theorem at a concrete two-target rule set whose
second target's write fails; both entries are produced and the failure
entry carries the error message. -/
theorem C7_rule_assignment_isolation_witness :
    (addEndpointWithRules failingAddE 0 sampleRecord { pathBased := true }).1.length =
        (determineCollectionAssignments sampleRecord { pathBased := true }).length ∧
      (((addEndpointWithRules failingAddE 0 sampleRecord { pathBased := true }).1.zip
          (determineCollectionAssignments sampleRecord { pathBased := true })).all
        ruleResultMatches) = true ∧
      (runAssignments failingAddE 1 (sampleAssignFail :: [])).1 =
        ⟨"api API", none, some "storage write failed", false⟩ ::
          (runAssignments failingAddE 2 []).1 := by
  have h := C7_rule_assignment_isolation failingAddE 0 sampleRecord { pathBased := true }
    sampleAssignFail [] 1 2 "storage write failed"
  exact ⟨h.1, h.2.1, h.2.2 rfl⟩

/-- C8: the claim states that every key not matching a sensitive
substring retains its original value byte-for-byte.  That fails for a
non-matching key whose value CONTAINS a matching key deeper down: in
`\x7b a: \x7b password: "x" \x7d \x7d` the key `a` matches nothing, yet its value
changes when the nested `password` is redacted. -/
theorem C8_frame_counterexample :
    matchesSensitiveField ["password"] "a" = false ∧
      recursiveSanitize ["password"] (jobj [("a", jobj [("password", jstr "x")])]) =
        jobj [("a", jobj [("password", jstr "[REDACTED]")])] ∧
      lookupAssoc "a" [("a", jobj [("password", jstr "[REDACTED]")])] ≠
        lookupAssoc "a" [("a", jobj [("password", jstr "x")])] := by
  decide

/-- C8 (amended): a key that does not match any sensitive substring and
whose value contains no matching key at any depth retains its original
value byte-for-byte under every body-sanitization path, and header
sanitization returns a copy in which every non-matching header key keeps
its value. -/
theorem C8_frame_amended (sf sh : List String) (host : Host) (v : JVal)
    (headers : List (String × String)) (k : String)
    (hv : noSensitiveKeys sf v = true)
    (hk : (sh.any fun s => lowerStr k == lowerStr s) = false) :
    recursiveSanitize sf v = v ∧ sanitizeBody sf v = v ∧
      (enhanceDataCapture sf host v).sanitized = v ∧
      lookupAssoc k (sanitizeHeaders sh headers) = lookupAssoc k headers := by
  refine ⟨recursiveSanitize_frame sf v hv, ?_, ?_, sanitizeHeaders_lookup sh headers k hk⟩
  · unfold sanitizeBody
    cases h : (jsTruthy v && (typeofStr v == "object")) with
    | true => simp [recursiveSanitize_frame sf v hv]
    | false => simp
  · unfold enhanceDataCapture
    cases h : isTruthyObject v with
    | true => simp [(recursiveEnhance_frame sf host v [] hv).1]
    | false => simp

/-- Witness for C8: the amended theorem at a concrete body whose keys
match nothing and a concrete non-sensitive header key. -/
theorem C8_frame_amended_witness :
    recursiveSanitize ["password"] (jobj [("user", jstr "bob")]) = jobj [("user", jstr "bob")] ∧
      sanitizeBody ["password"] (jobj [("user", jstr "bob")]) = jobj [("user", jstr "bob")] ∧
      (enhanceDataCapture ["password"] sampleHost (jobj [("user", jstr "bob")])).sanitized =
        jobj [("user", jstr "bob")] ∧
      lookupAssoc "content-type" (sanitizeHeaders ["authorization"]
          [("content-type", "application/json"), ("authorization", "Bearer t")]) =
        lookupAssoc "content-type"
          [("content-type", "application/json"), ("authorization", "Bearer t")] :=
  C8_frame_amended ["password"] ["authorization"] sampleHost (jobj [("user", jstr "bob")])
    [("content-type", "application/json"), ("authorization", "Bearer t")] "content-type"
    (by decide) (by decide)

theorem addEndpoint_saved (opts : GenOptions) (host : Host) (fuel : Nat) (now : String)
    (st : GenState) (r : EndpointRecord)
    (h : ¬(opts.detectChanges = true ∧
      lookupAssoc (endpointKeyOf r) st.endpointHashes = some (currentHashOf r))) :
    (addEndpoint opts host fuel now st r).2.2 = opts.autoSave := by
  simp only [addEndpoint]
  split
  · next hcond => exact absurd hcond h
  · rfl

theorem addEndpoint_stores_op (opts : GenOptions) (host : Host) (fuel : Nat) (now : String)
    (st : GenState) (r : EndpointRecord)
    (h : ¬(opts.detectChanges = true ∧
      lookupAssoc (endpointKeyOf r) st.endpointHashes = some (currentHashOf r))) :
    (lookupAssoc (normalizePathForParameterization r.request.path)
        ((addEndpoint opts host fuel now st r).2.1).paths).bind
        (lookupAssoc (lowerStr r.request.method)) =
      some ((addEndpoint opts host fuel now st r).1) := by
  simp only [addEndpoint]
  split
  · next hcond => exact absurd hcond h
  · by_cases hg : opts.groupByPath = true <;>
      simp [hg, normalizeRecordPath, lookupAssoc_setAssoc]

/-- Field access on an object value, `none` on anything else. -/
def jvalGet (k : String) : JVal → Option JVal
  | jobj fs => lookupAssoc k fs
  | _ => none

theorem convert_xActualData_requestBody (opts : GenOptions) (host : Host) (fuel : Nat)
    (now : String) (r : EndpointRecord) (bv : JVal)
    (ha : r.request.bodyActual = some bv) (hav : jsTruthy bv = true) :
    (jvalGet "x-actual-data" (convertToOpenAPIPathItem opts host fuel now r)).bind
      (jvalGet "requestBody") = some bv := by
  have hreq : optTruthy r.request.bodyActual = true := by simp [optTruthy, ha, hav]
  have hbv : optTruthy (some bv) = true := by simp [optTruthy, hav]
  cases hresp : (optTruthy r.response.bodyActual || optBoolTruthy r.response.hasSensitiveData) with
  | true =>
      simp [convertToOpenAPIPathItem, hreq, hbv, hresp, jvalGet, lookupAssoc, jsOrNull, ha, hav]
  | false =>
      simp [convertToOpenAPIPathItem, hreq, hbv, hresp, jvalGet, lookupAssoc, jsOrNull, ha, hav]

/-- C1: when change detection is enabled and the stored hash for the
record's `"<METHOD>:<normalizedPath>"` key equals the current record's
hash, `addEndpoint` returns the Operation with the generator state
untouched and performs no save; consequently a second `addEndpoint` call
with the identical record leaves the state of the first call unchanged
and performs zero writes, regardless of the clock values of either call. -/
theorem C1_change_detection_idempotent (opts : GenOptions) (host : Host) (fuel : Nat)
    (now1 now2 : String) (st : GenState) (r : EndpointRecord)
    (hdc : opts.detectChanges = true) :
    (lookupAssoc (endpointKeyOf r) st.endpointHashes = some (currentHashOf r) →
      addEndpoint opts host fuel now1 st r =
        (convertToOpenAPIPathItem opts host fuel now1 (normalizeRecordPath r), st, false)) ∧
      (addEndpoint opts host fuel now2 (addEndpoint opts host fuel now1 st r).2.1 r).2.1 =
        (addEndpoint opts host fuel now1 st r).2.1 ∧
      (addEndpoint opts host fuel now2 (addEndpoint opts host fuel now1 st r).2.1 r).2.2 =
        false := by
  have hl := addEndpoint_after_lookup opts host fuel now1 st r
  have hskip := addEndpoint_skip opts host fuel now2
    ((addEndpoint opts host fuel now1 st r).2.1) r hdc hl
  exact ⟨fun h => addEndpoint_skip opts host fuel now1 st r hdc h,
    by rw [hskip], by rw [hskip]⟩

/-- Witness for C1: the theorem at a concrete record and the empty
generator state; the second call leaves the first call's state untouched
and reports no save, and once the hash is stored a call skips with the
state unchanged. -/
theorem C1_change_detection_idempotent_witness :
    (addEndpoint {} sampleHost 10 "t2"
          ((addEndpoint {} sampleHost 10 "t1" {} sampleRecord).2.1) sampleRecord).2.1 =
        (addEndpoint {} sampleHost 10 "t1" {} sampleRecord).2.1 ∧
      (addEndpoint {} sampleHost 10 "t2"
          ((addEndpoint {} sampleHost 10 "t1" {} sampleRecord).2.1) sampleRecord).2.2 =
        false := by
  have h := C1_change_detection_idempotent {} sampleHost 10 "t1" "t2" {} sampleRecord
    (by decide)
  exact ⟨h.2.1, h.2.2⟩

/-- C2: the claim states that two captures differing only in timing
fields hash identically and trigger no second write.  The hash covers
the ENTIRE response record, duration included: `sampleRecordSlow`
differs from `sampleRecord` only in `response.duration`, yet the hashes
differ and the second `addEndpoint` call does perform a save. -/
theorem C2_hash_counterexample :
    calculateEndpointHash sampleRecord ≠ calculateEndpointHash sampleRecordSlow ∧
      (addEndpoint {} sampleHost 10 "t2"
          ((addEndpoint {} sampleHost 10 "t1" {} sampleRecord).2.1) sampleRecordSlow).2.2 =
        true := by
  decide

/-- C2 (amended): `calculateEndpointHash` digests exactly
`\x7bmethod, path, request headers, request body, response\x7d`; two records
agreeing on those five components hash identically however the other
request-side fields (for example `startTime` or `timestamp`) differ,
while ANY difference in the response record -- response body, but also
response-side timing such as `duration` -- changes the hash, and a
record whose response body differs from the stored capture triggers a
save on the second `addEndpoint` call. -/
theorem C2_hash_sensitivity_amended (r1 r2 : EndpointRecord) (opts : GenOptions) (host : Host)
    (fuel : Nat) (now1 now2 : String) (st : GenState) :
    (r1.request.method = r2.request.method → r1.request.path = r2.request.path →
      r1.request.headers = r2.request.headers → r1.request.body = r2.request.body →
      r1.response = r2.response →
      calculateEndpointHash r1 = calculateEndpointHash r2) ∧
    (r1.response ≠ r2.response → calculateEndpointHash r1 ≠ calculateEndpointHash r2) ∧
    (r1.response.body ≠ r2.response.body →
      calculateEndpointHash r1 ≠ calculateEndpointHash r2) ∧
    (opts.detectChanges = true → opts.autoSave = true →
      r1.request.method = r2.request.method → r1.request.path = r2.request.path →
      r1.response.body ≠ r2.response.body →
      (addEndpoint opts host fuel now2 ((addEndpoint opts host fuel now1 st r1).2.1) r2).2.2 =
        true) := by
  refine ⟨?_, ?_, ?_, ?_⟩
  · intro h1 h2 h3 h4 h5
    simp [calculateEndpointHash, h1, h2, h3, h4, h5]
  · exact fun hne heq => hne (congrArg HashData.response heq)
  · exact fun hb heq => hb (congrArg (fun h => h.response.body) heq)
  · intro hdc hauto hm hp hb
    have hl1 := addEndpoint_after_lookup opts host fuel now1 st r1
    have hkey : endpointKeyOf r1 = endpointKeyOf r2 := by
      simp [endpointKeyOf, hm, hp]
    have hhash : currentHashOf r1 ≠ currentHashOf r2 := fun he =>
      hb (congrArg (fun h => h.response.body) he)
    rw [hkey] at hl1
    rw [addEndpoint_saved opts host fuel now2 _ r2 ?_, hauto]
    intro hc
    rw [hl1] at hc
    exact hhash (Option.some.inj hc.2)
  
/-- Witness for C2: the amended theorem at concrete records -- two
records differing only in `request.startTime` hash identically; two
records differing in response body hash differently and the second call
saves. -/
theorem C2_hash_sensitivity_amended_witness :
    calculateEndpointHash sampleRecord =
        calculateEndpointHash
          { sampleRecord with request := { sampleRequest with startTime := 999 } } ∧
      calculateEndpointHash sampleRecord ≠ calculateEndpointHash sampleRecordBody2 ∧
      (addEndpoint {} sampleHost 10 "t2"
          ((addEndpoint {} sampleHost 10 "t1" ({} : GenState) sampleRecord).2.1)
          sampleRecordBody2).2.2 = true := by
  have h := C2_hash_sensitivity_amended sampleRecord
    { sampleRecord with request := { sampleRequest with startTime := 999 } }
    {} sampleHost 10 "t1" "t2" {}
  have h2 := C2_hash_sensitivity_amended sampleRecord sampleRecordBody2 {} sampleHost 10
    "t1" "t2" {}
  exact ⟨h.1 rfl rfl rfl rfl rfl, h2.2.2.1 (by decide),
    h2.2.2.2 (by decide) (by decide) rfl rfl (by decide)⟩

/-- Concrete framework request for the C9 witness: its body holds a
`password` key that stays unredacted under the default options. -/
def sampleReq : ExpressReq := {
  method := "POST"
  url := "/login"
  path := "/login"
  headers := [("authorization", "Bearer t"), ("content-type", "application/json")]
  body := some (jobj [("email", jstr "a@b.com"), ("password", jstr "secret")]) }

/-- C9: an `EndpointCapture` constructed with no `sensitiveHeaders` and
no `sensitiveFields` options resolves both to the EMPTY list, so
`captureRequest` performs no redaction at all: the captured headers equal
the incoming headers, the captured body equals the incoming body
(including keys named `password` or `token`), its unredacted copy is the
same value, and `hasSensitiveData` is false. -/
theorem C9_default_no_redaction (oin : CaptureOptionsIn) (host : Host) (now : Int)
    (nowStr : String) (req : ExpressReq) (b : JVal)
    (h1 : oin.sensitiveHeaders = none) (h2 : oin.sensitiveFields = none)
    (h3 : req.method ≠ "") (h4 : req.url ≠ "")
    (h5 : req.body = some b) (h6 : jsTruthy b = true)
    (h7 : oin.captureHeaders ≠ some false) (h8 : oin.captureRequestBody ≠ some false) :
    (resolveCaptureOptions oin).sensitiveHeaders = [] ∧
      (resolveCaptureOptions oin).sensitiveFields = [] ∧
      ∃ d, captureRequest (resolveCaptureOptions oin) host now nowStr req = .ok d ∧
        d.headers = some req.headers ∧ d.body = some b ∧ d.bodyActual = some b ∧
        d.hasSensitiveData = some false := by
  have hsh : (resolveCaptureOptions oin).sensitiveHeaders = [] := by
    simp [resolveCaptureOptions, h1]
  have hsf : (resolveCaptureOptions oin).sensitiveFields = [] := by
    simp [resolveCaptureOptions, h2]
  have hch : (resolveCaptureOptions oin).captureHeaders = true := by
    simp [resolveCaptureOptions, h7]
  have hcrb : (resolveCaptureOptions oin).captureRequestBody = true := by
    simp [resolveCaptureOptions, h8]
  have henh := enhanceDataCapture_nil host b
  refine ⟨hsh, hsf, ?_⟩
  unfold captureRequest
  rw [if_neg (by simp [h3, h4])]
  simp only [h5]
  rw [if_pos ⟨hcrb, h6⟩]
  refine ⟨_, rfl, ?_, ?_, ?_, ?_⟩
  · simp [hch, hsh, sanitizeHeaders_nil]
  · simp only [hsf, henh.1]
  · simp only [hsf, henh.2.1]
  · simp only [hsf, henh.2.2]

/-- Witness for C9: the theorem at a concrete request whose body holds a
`password` key, with an empty constructor-options object. -/
theorem C9_default_no_redaction_witness :
    (resolveCaptureOptions {}).sensitiveHeaders = [] ∧
      (resolveCaptureOptions {}).sensitiveFields = [] ∧
      ∃ d, captureRequest (resolveCaptureOptions {}) sampleHost 0 "2023" sampleReq = .ok d ∧
        d.headers = some sampleReq.headers ∧
        d.body = some (jobj [("email", jstr "a@b.com"), ("password", jstr "secret")]) ∧
        d.bodyActual = some (jobj [("email", jstr "a@b.com"), ("password", jstr "secret")]) ∧
        d.hasSensitiveData = some false :=
  C9_default_no_redaction {} sampleHost 0 "2023" sampleReq
    (jobj [("email", jstr "a@b.com"), ("password", jstr "secret")])
    rfl rfl (by decide) (by decide) rfl (by decide) (by decide) (by decide)

/-- C10: whenever a request body is captured, `bodyActual` is populated
with an exact copy of the original unredacted body whatever the
sensitive-field configuration (not only when sensitive data is present);
and an Operation built from a record with a truthy `bodyActual` carries
that value under `x-actual-data.requestBody`, the stored document entry
at the normalized path and lower-cased method being exactly the built
Operation. -/
theorem C10_body_actual_always (sf : List String) (copts : CaptureOptions)
    (opts : GenOptions) (host : Host) (fuel : Nat) (now : String) (nowInt : Int)
    (nowStr : String) (st : GenState) (req : ExpressReq) (r : EndpointRecord) (b bv : JVal)
    (hb : jsTruthy b = true) (hreq : req.body = some b)
    (hm : req.method ≠ "") (hu : req.url ≠ "") (hcap : copts.captureRequestBody = true)
    (ha : r.request.bodyActual = some bv) (hav : jsTruthy bv = true)
    (hdc : opts.detectChanges = false) :
    (enhanceDataCapture sf host b).actual = b ∧
      (∃ d, captureRequest copts host nowInt nowStr req = .ok d ∧ d.bodyActual = some b) ∧
      (jvalGet "x-actual-data" (convertToOpenAPIPathItem opts host fuel now r)).bind
        (jvalGet "requestBody") = some bv ∧
      (jvalGet "x-actual-data" ((addEndpoint opts host fuel now st r).1)).bind
        (jvalGet "requestBody") = some bv ∧
      (lookupAssoc (normalizePathForParameterization r.request.path)
          ((addEndpoint opts host fuel now st r).2.1).paths).bind
        (lookupAssoc (lowerStr r.request.method)) =
        some ((addEndpoint opts host fuel now st r).1) := by
  have hnc : ¬(opts.detectChanges = true ∧
      lookupAssoc (endpointKeyOf r) st.endpointHashes = some (currentHashOf r)) := by
    intro hc
    rw [hdc] at hc
    exact absurd hc.1 (by simp)
  have hop : (addEndpoint opts host fuel now st r).1 =
      convertToOpenAPIPathItem opts host fuel now (normalizeRecordPath r) := by
    simp only [addEndpoint]
    split
    · rfl
    · rfl
  have ha' : (normalizeRecordPath r).request.bodyActual = some bv := ha
  refine ⟨enhanceDataCapture_actual sf host b, ?_, ?_, ?_, ?_⟩
  · unfold captureRequest
    rw [if_neg (by simp [hm, hu])]
    simp only [hreq]
    rw [if_pos ⟨hcap, hb⟩]
    exact ⟨_, rfl, by simp [enhanceDataCapture_actual]⟩
  · exact convert_xActualData_requestBody opts host fuel now r bv ha hav
  · rw [hop]
    exact convert_xActualData_requestBody opts host fuel now (normalizeRecordPath r) bv ha' hav
  · exact addEndpoint_stores_op opts host fuel now st r hnc

/-- Witness for C10: the theorem at `sampleRecord` (body and unredacted
copy both present), with change detection off. -/
theorem C10_body_actual_always_witness :
    (enhanceDataCapture ["password"] sampleHost
          (jobj [("email", jstr "a@b.com"), ("password", jstr "secret")])).actual =
        jobj [("email", jstr "a@b.com"), ("password", jstr "secret")] ∧
      (∃ d, captureRequest (resolveCaptureOptions {}) sampleHost 0 "2023" sampleReq = .ok d ∧
        d.bodyActual = some (jobj [("email", jstr "a@b.com"), ("password", jstr "secret")])) ∧
      (jvalGet "x-actual-data"
          (convertToOpenAPIPathItem { detectChanges := false } sampleHost 10 "t1"
            sampleRecord)).bind (jvalGet "requestBody") = some (jobj [("id", jnum 7)]) ∧
      (jvalGet "x-actual-data"
          ((addEndpoint { detectChanges := false } sampleHost 10 "t1" {} sampleRecord).1)).bind
        (jvalGet "requestBody") = some (jobj [("id", jnum 7)]) ∧
      (lookupAssoc (normalizePathForParameterization sampleRecord.request.path)
          ((addEndpoint { detectChanges := false } sampleHost 10 "t1" {}
            sampleRecord).2.1).paths).bind
        (lookupAssoc (lowerStr sampleRecord.request.method)) =
        some ((addEndpoint { detectChanges := false } sampleHost 10 "t1" {} sampleRecord).1) :=
  C10_body_actual_always ["password"] (resolveCaptureOptions {}) { detectChanges := false }
    sampleHost 10 "t1" 0 "2023" {} sampleReq sampleRecord
    (jobj [("email", jstr "a@b.com"), ("password", jstr "secret")]) (jobj [("id", jnum 7)])
    (by decide) rfl (by decide) (by decide) (by decide) (by decide) (by decide) rfl
